import Mathlib

set_option autoImplicit false

/-!
Verification of the dependency-flattening, JSON-writing and loader-plugin
registry code of the calmjs repository (`calmjs/dist.py`,
`calmjs/loaderplugin.py`), together with models of the runtime dispatcher
behaviour exercised by `calmjs/tests/test_runtime.py`.

Python dicts are embedded as ordered association lists with unique-key
semantics enforced by the operations themselves (`dset` replaces in place,
like `d[k] = v`), JSON values as an inductive `Json` type, and fallible
Python code as `Option`-returning functions.  Log output is threaded
explicitly as lists of (level, message) pairs.
-/

namespace Calmjs

/-- A JSON value as decoded by Python's `json.loads`.  `null` corresponds to
Python `None`.  JSON arrays are not modelled: no code path under scrutiny
constructs or consumes them. -/
inductive Json where
  | null
  | b (bo : Bool)
  | num (n : Int)
  | str (s : String)
  | obj (fields : List (String × Json))

/-- A Python dict with string keys, in insertion order. -/
abbrev Dict (V : Type) := List (String × V)

/-- A decoded JSON object. -/
abbrev Obj := Dict Json

/-- Python `d.get(k)` / `d[k]`: dict lookup.  A dict built by the operations
below never holds duplicate keys, so first-match lookup is exact. -/
def dget {V : Type} : Dict V → String → Option V
  | [], _ => none
  | (k0, v) :: rest, k => if k0 = k then some v else dget rest k

/-- Python `d[k] = v`: replace the value in place if the key is present,
otherwise append the new entry (dicts preserve insertion order). -/
def dset {V : Type} : Dict V → String → V → Dict V
  | [], k, v => [(k, v)]
  | (k0, v0) :: rest, k, v =>
      if k0 = k then (k0, v) :: rest else (k0, v0) :: dset rest k v

/-- Python `d.update(e)`: assign every entry of `e` into `d`, in order. -/
def dupdate {V : Type} (d e : Dict V) : Dict V :=
  e.foldl (fun acc kv => dset acc kv.1 kv.2) d

/-- First-some choice on options (`x if x is not None else y`). -/
def orelse {V : Type} : Option V → Option V → Option V
  | some a, _ => some a
  | none, b => b

/-- Last-match lookup: the value of the last entry of `d` whose key is `k`.
Used to state what a sequence of assignments leaves behind. -/
def dlast {V : Type} (d : Dict V) (k : String) : Option V :=
  d.foldl (fun acc kv => if kv.1 = k then some kv.2 else acc) none

@[simp] theorem orelse_none_left {V : Type} (b : Option V) : orelse none b = b := rfl

@[simp] theorem orelse_some_left {V : Type} (a : V) (b : Option V) :
    orelse (some a) b = some a := rfl

theorem orelse_assoc {V : Type} (a b c : Option V) :
    orelse (orelse a b) c = orelse a (orelse b c) := by
  cases a <;> cases b <;> rfl

@[simp] theorem orelse_none_right {V : Type} (a : Option V) : orelse a none = a := by
  cases a <;> rfl

theorem dget_dset {V : Type} (d : Dict V) (k k' : String) (v : V) :
    dget (dset d k v) k' = if k = k' then some v else dget d k' := by
  induction d with
  | nil => simp [dset, dget]
  | cons hd tl ih =>
      obtain ⟨k0, v0⟩ := hd
      by_cases h : k0 = k
      · subst h
        simp only [dset, if_pos rfl, dget]
        by_cases h' : k0 = k'
        · subst h'; simp
        · simp [h', dget]
      · simp only [dset, if_neg h, dget]
        by_cases h' : k0 = k'
        · subst h'
          have : ¬ k = k0 := fun he => h he.symm
          simp [this]
        · simp [h', ih]

theorem dlast_foldl {V : Type} (e : Dict V) (k : String) (acc : Option V) :
    e.foldl (fun a kv => if kv.1 = k then some kv.2 else a) acc
      = orelse (dlast e k) acc := by
  induction e generalizing acc with
  | nil => simp [dlast]
  | cons hd tl ih =>
      simp only [dlast, List.foldl_cons] at *
      rw [ih, ih (if hd.1 = k then some hd.2 else none)]
      by_cases h : hd.1 = k <;> simp [h, orelse_assoc]

theorem dlast_cons {V : Type} (k0 : String) (v0 : V) (tl : Dict V) (k : String) :
    dlast ((k0, v0) :: tl) k
      = orelse (dlast tl k) (if k0 = k then some v0 else none) := by
  simp only [dlast, List.foldl_cons]
  exact dlast_foldl tl k _

theorem dget_dupdate {V : Type} (d e : Dict V) (k : String) :
    dget (dupdate d e) k = orelse (dlast e k) (dget d k) := by
  induction e generalizing d with
  | nil => simp [dupdate, dlast]
  | cons hd tl ih =>
      obtain ⟨k0, v0⟩ := hd
      show dget (dupdate (dset d k0 v0) tl) k = _
      rw [ih, dget_dset, dlast_cons]
      by_cases h : k0 = k <;> simp [h, orelse_assoc]

theorem dget_eq_some_iff_mem {V : Type} (d : Dict V)
    (hk : (d.map Prod.fst).Nodup) (k : String) (v : V) :
    dget d k = some v ↔ (k, v) ∈ d := by
  induction d with
  | nil => simp [dget]
  | cons hd tl ih =>
      obtain ⟨k0, v0⟩ := hd
      simp only [List.map_cons, List.nodup_cons] at hk
      by_cases h : k0 = k
      · subst h
        have hd : dget ((k0, v0) :: tl) k0 = some v0 := by simp [dget]
        rw [hd]
        simp only [List.mem_cons, Option.some.injEq]
        constructor
        · rintro rfl; exact Or.inl rfl
        · rintro (he | hm)
          · simp only [Prod.mk.injEq, true_and] at he
            exact he.symm
          · exact absurd (List.mem_map_of_mem Prod.fst hm) hk.1
      · simp only [dget, if_neg h, List.mem_cons]
        rw [ih hk.2]
        constructor
        · exact Or.inr
        · rintro (he | hm)
          · cases he; exact absurd rfl h
          · exact hm

/-! ### Embedding of `calmjs/dist.py` -/

/-- Python logging severities used by the code under scrutiny. -/
inductive LogLevel where
  | debug
  | info
  | warning
  | error
  | critical
deriving DecidableEq

/-- One emitted log record: severity and the message template of the call. -/
abbrev LogEntry := LogLevel × String

/-- The observable state of one distribution's egg-info metadata file, for a
fixed filename: the conditions probed by `get_dist_egginfo_json`
(`dist.has_metadata` false, `dist.get_metadata` raising `IOError`,
`json.loads` failing), or the decoded JSON value on success. -/
inductive DistMeta where
  | missing
  | ioError
  | invalid
  | ok (obj : Json)

/-- `get_dist_egginfo_json`: safely get a json within an egginfo from a
distribution.  Returns the decoded value (or `none`) paired with the log
records the function emits. -/
def get_dist_egginfo_json : DistMeta → Option Json × List LogEntry
  | .missing => (none, [(.debug, "no '%s' for '%s'")])
  | .ioError => (none, [(.error, "I/O error on reading of '%s' for '%s'.")])
  | .invalid => (none, [(.error, "the '%s' found in '%s' is not a valid json.")])
  | .ok obj => (some obj, [(.debug, "found '%s' for '%s'.")])

/-- Default dependency keys of `calmjs.dist` (`DEP_KEYS`). -/
def DEP_KEYS : List String := ["dependencies", "devDependencies"]

/-- Python truthiness of a decoded JSON value, as tested by
`if not obj: continue` and by `... or` defaults. -/
def jfalsy : Json → Bool
  | .null => true
  | .b bo => !bo
  | .num n => n == 0
  | .str s => s == ""
  | .obj fields => fields.isEmpty

/-- Python `obj.get(dep)` with an empty-dict default, on a decoded JSON
value: `none` models the `AttributeError` raised when `obj` is not a dict. -/
def jget_default (j : Json) (dep : String) : Option Json :=
  match j with
  | .obj fields =>
      some (match dget fields dep with
        | some v => v
        | none => Json.obj [])
  | _ => none

/-- The entries a JSON value hands to Python `dict.update`: a dict yields its
fields, anything else raises (`none`). -/
def as_fields : Json → Option Obj
  | .obj fields => some fields
  | _ => none

/-- The inner loop of `flatten_dist_egginfo_json` over one decoded json:
`for dep in dep_keys: depends[dep].update(obj.get(dep, ...))`.  The
accumulator `depends` maps each dependency key to its merged dict; `none`
models a raised exception (non-dict json, or a non-dict value under a
dependency key). -/
def merge_dep_keys (dep_keys : List String) (depends : String → Obj) (j : Json) :
    Option (String → Obj) :=
  dep_keys.foldlM
    (fun acc dep =>
      match jget_default j dep with
      | none => none
      | some v =>
          match as_fields v with
          | none => none
          | some e => some (fun d => if d = dep then dupdate (acc d) e else acc d))
    depends

/-- `iter_dist_requires`: the distributions the generator yields for a source
distribution.  `resolved` stands for the output of
`working_set.resolve(source_dist.requires())`; the generator walks it in
reverse, and an absent source distribution has no requirements. -/
def iter_dist_requires (source_dist : Option DistMeta) (resolved : List DistMeta) :
    List DistMeta :=
  match source_dist with
  | none => []
  | some _ => resolved.reverse

/-- The body of the main loop of `flatten_dist_egginfo_json` for one required
distribution: fetch its json, skip it when falsy (`if not obj: continue`),
otherwise log the merge and merge its dependency keys. -/
def flatten_step (dep_keys : List String)
    (st : (String → Obj) × List LogEntry) (dist : DistMeta) :
    Option ((String → Obj) × List LogEntry) :=
  let g := get_dist_egginfo_json dist
  let logs := st.2 ++ g.2
  match g.1 with
  | none => some (st.1, logs)
  | some obj =>
      if jfalsy obj then some (st.1, logs)
      else
        (merge_dep_keys dep_keys st.1 obj).map
          (fun dd => (dd, logs ++ [(LogLevel.debug, "merging '%s' for required '%s'")]))

/-- Python `v is not None`, the filter of the final loop. -/
def not_none (kv : String × Json) : Bool :=
  match kv.2 with
  | Json.null => false
  | _ => true

/-- The final loop of `flatten_dist_egginfo_json`:
`root[dep] = ...nulls filtered out...` for each dependency key.  Item
assignment on a non-dict root raises (`none`). -/
def assign_filtered (dep_keys : List String) (depends : String → Obj) (root : Json) :
    Option Json :=
  dep_keys.foldlM
    (fun r dep =>
      match r with
      | Json.obj fields =>
          some (Json.obj (dset fields dep (Json.obj ((depends dep).filter not_none))))
      | _ => none)
    root

/-- `flatten_dist_egginfo_json`: overlay each resolved ancestor's dependency
mappings, from the most distant ancestor towards the root, overlay the
root distribution's own declarations last, and drop `null` entries.  The
successful result pairs the returned json with the emitted log; `none`
models an exception escaping the call. -/
def flatten_dist_egginfo_json (source_dist : Option DistMeta)
    (resolved : List DistMeta) (dep_keys : List String) :
    Option (Json × List LogEntry) :=
  let rootG :=
    match source_dist with
    | some s => get_dist_egginfo_json s
    | none => (none, [])
  let root : Json :=
    match rootG.1 with
    | some j => if jfalsy j then Json.obj [] else j
    | none => Json.obj []
  let init : (String → Obj) × List LogEntry := (fun _ => [], rootG.2)
  match (iter_dist_requires source_dist resolved).foldlM (flatten_step dep_keys) init with
  | none => none
  | some st =>
      let st2? : Option ((String → Obj) × List LogEntry) :=
        match source_dist with
        | none => some st
        | some _ =>
            (merge_dep_keys dep_keys st.1 root).map
              (fun dd => (dd, st.2 ++ [(LogLevel.debug, "merging '%s' for target '%s'")]))
      match st2? with
      | none => none
      | some st2 =>
          match assign_filtered dep_keys st2.1 root with
          | none => none
          | some final => some (final, st2.2)

example :
    flatten_dist_egginfo_json
      (some (.ok (Json.obj [("dependencies", Json.obj [("backbone", .str "~1.3.2")])])))
      [.ok (Json.obj [("name", .str "site"),
         ("dependencies", Json.obj [("jquery", .str "~3.1.0")])]),
       .ok (Json.obj [("name", .str "site"),
         ("dependencies", Json.obj [("underscore", .str "~1.8.3")])])]
      DEP_KEYS
    = some (Json.obj
        [("dependencies", Json.obj
          [("underscore", .str "~1.8.3"), ("jquery", .str "~3.1.0"),
           ("backbone", .str "~1.3.2")]),
         ("devDependencies", Json.obj [])],
        [(.debug, "found '%s' for '%s'."),
         (.debug, "found '%s' for '%s'."),
         (.debug, "merging '%s' for required '%s'"),
         (.debug, "found '%s' for '%s'."),
         (.debug, "merging '%s' for required '%s'"),
         (.debug, "merging '%s' for target '%s'")]) := by rfl

/-! ### Specification-side helpers for stating the overlay order

These definitions are not translations of code; they name, for the theorem
statements, the value the spec says a key should end up with: the last
declaration in overlay order wins, and `null` entries are dropped. -/

/-- The dependency entries a decoded json declares under key `dep`, as the
merge loop reads them (nothing for a missing key or a non-dict json). -/
def dep_fields (j : Json) (dep : String) : Obj :=
  match j with
  | .obj fields =>
      match dget fields dep with
      | some (Json.obj e) => e
      | _ => []
  | _ => []

/-- The json a distribution contributes to the merge loop: `none` when its
metadata is unavailable or decodes to a falsy value (the loop skips it). -/
def contrib (d : DistMeta) : Option Json :=
  match (get_dist_egginfo_json d).1 with
  | none => none
  | some j => if jfalsy j then none else some j

/-- The merged value of key `k` under dependency key `dep` over an overlay
sequence `objs`: a later (closer) declaration overrides an earlier
(more distant) one. -/
def overlay_value (objs : List Json) (dep k : String) : Option Json :=
  objs.foldl (fun acc j => orelse (dlast (dep_fields j dep) k) acc) none

/-- The root json as `flatten_dist_egginfo_json` computes it:
`get_dist_egginfo_json(source_dist, filename) or` the empty dict. -/
def root_json (s : DistMeta) : Json :=
  match (get_dist_egginfo_json s).1 with
  | some j => if jfalsy j then Json.obj [] else j
  | none => Json.obj []

/-- Null-entry deletion at the level of a single merged value. -/
def drop_null (k : String) : Option Json → Option Json
  | some v => if not_none (k, v) then some v else none
  | none => none

/-! ### Lemmas about the merge loops -/

theorem orelse_idem {V : Type} (a b : Option V) :
    orelse a (orelse a b) = orelse a b := by
  cases a <;> rfl

theorem overlay_value_foldl (objs : List Json) (dep k : String) (acc : Option Json) :
    objs.foldl (fun a j => orelse (dlast (dep_fields j dep) k) a) acc
      = orelse (overlay_value objs dep k) acc := by
  induction objs generalizing acc with
  | nil => simp [overlay_value]
  | cons hd tl ih =>
      simp only [overlay_value, List.foldl_cons] at *
      rw [ih, ih (orelse (dlast (dep_fields hd dep) k) none)]
      simp [orelse_assoc]

theorem overlay_value_cons (j : Json) (objs : List Json) (dep k : String) :
    overlay_value (j :: objs) dep k
      = orelse (overlay_value objs dep k) (dlast (dep_fields j dep) k) := by
  simp only [overlay_value, List.foldl_cons]
  rw [overlay_value_foldl]
  simp [overlay_value]

/-- Combination step shared by the two success branches of
`merge_dep_keys_lookup`: fold one assignment into the lookup equation. -/
theorem merge_comb (j : Json) (depends dd : String → Obj)
    (dep0 : String) (rest : List String) (E : Obj) (dep k : String)
    (hE : dep_fields j dep0 = E)
    (hih : dget (dd dep) k
      = if dep ∈ rest
          then orelse (dlast (dep_fields j dep) k)
            (dget ((if dep = dep0 then dupdate (depends dep) E else depends dep)) k)
          else dget ((if dep = dep0 then dupdate (depends dep) E else depends dep)) k) :
    dget (dd dep) k
      = if dep ∈ dep0 :: rest
          then orelse (dlast (dep_fields j dep) k) (dget (depends dep) k)
          else dget (depends dep) k := by
  rw [hih]
  by_cases hd0 : dep = dep0
  · subst hd0
    rw [if_pos rfl, dget_dupdate, ← hE]
    by_cases hr : dep ∈ rest
    · rw [if_pos hr, if_pos (List.mem_cons_self dep rest), orelse_idem]
    · rw [if_neg hr, if_pos (List.mem_cons_self dep rest)]
  · rw [if_neg hd0]
    have hmem : (dep ∈ dep0 :: rest) ↔ (dep ∈ rest) := by
      simp [List.mem_cons, hd0]
    by_cases hr : dep ∈ rest
    · rw [if_pos hr, if_pos (hmem.mpr hr)]
    · rw [if_neg hr, if_neg (fun hc => hr (hmem.mp hc))]

/-- Per-key lookup behaviour of the inner merge loop. -/
theorem merge_dep_keys_lookup (dep_keys : List String) (depends : String → Obj)
    (j : Json) (dd : String → Obj)
    (h : merge_dep_keys dep_keys depends j = some dd) (dep k : String) :
    dget (dd dep) k
      = if dep ∈ dep_keys
          then orelse (dlast (dep_fields j dep) k) (dget (depends dep) k)
          else dget (depends dep) k := by
  induction dep_keys generalizing depends with
  | nil =>
      simp only [merge_dep_keys, List.foldlM] at h
      cases h
      simp
  | cons dep0 rest ih =>
      simp only [merge_dep_keys, List.foldlM_cons] at h
      cases j with
      | null => simp [jget_default] at h
      | b bo => simp [jget_default] at h
      | num n => simp [jget_default] at h
      | str s => simp [jget_default] at h
      | obj fields =>
          have hj : jget_default (Json.obj fields) dep0
              = some (match dget fields dep0 with
                  | some v => v
                  | none => Json.obj []) := rfl
          rw [hj] at h
          cases h3 : dget fields dep0 with
          | none =>
              rw [h3] at h
              simp only [as_fields, Option.some_bind] at h
              have hE : dep_fields (Json.obj fields) dep0 = [] := by
                simp [dep_fields, h3]
              exact merge_comb _ depends dd dep0 rest [] dep k hE (ih _ h)
          | some w =>
              rw [h3] at h
              cases w with
              | null => simp [as_fields] at h
              | b bo => simp [as_fields] at h
              | num n => simp [as_fields] at h
              | str s => simp [as_fields] at h
              | obj o =>
                  simp only [as_fields, Option.some_bind] at h
                  have hE : dep_fields (Json.obj fields) dep0 = o := by
                    simp [dep_fields, h3]
                  exact merge_comb _ depends dd dep0 rest o dep k hE (ih _ h)

theorem mem_keys_dset {V : Type} (d : Dict V) (k : String) (v : V) (a : String) :
    a ∈ (dset d k v).map Prod.fst ↔ a ∈ d.map Prod.fst ∨ a = k := by
  induction d with
  | nil => simp [dset]
  | cons hd tl ih =>
      obtain ⟨k0, v0⟩ := hd
      by_cases h : k0 = k
      · subst h
        simp [dset]
        tauto
      · simp only [dset, if_neg h, List.map_cons, List.mem_cons, ih]
        tauto

theorem dset_nodup {V : Type} (d : Dict V) (k : String) (v : V)
    (h : (d.map Prod.fst).Nodup) : ((dset d k v).map Prod.fst).Nodup := by
  induction d with
  | nil => simp [dset]
  | cons hd tl ih =>
      obtain ⟨k0, v0⟩ := hd
      simp only [List.map_cons, List.nodup_cons] at h
      by_cases hk : k0 = k
      · subst hk
        have hds : dset ((k0, v0) :: tl) k0 v = (k0, v) :: tl := by simp [dset]
        rw [hds]
        simp only [List.map_cons, List.nodup_cons]
        exact h
      · simp only [dset, if_neg hk, List.map_cons, List.nodup_cons]
        refine ⟨fun hc => ?_, ih h.2⟩
        rcases (mem_keys_dset tl k v k0).mp hc with hm | he
        · exact h.1 hm
        · exact hk he

theorem dupdate_nodup {V : Type} (d e : Dict V)
    (h : (d.map Prod.fst).Nodup) : ((dupdate d e).map Prod.fst).Nodup := by
  induction e generalizing d with
  | nil => exact h
  | cons hd tl ih =>
      show ((dupdate (dset d hd.1 hd.2) tl).map Prod.fst).Nodup
      exact ih _ (dset_nodup d hd.1 hd.2 h)

/-- Every per-key accumulated dict has unique keys. -/
def AllNodup (dd : String → Obj) : Prop :=
  ∀ dep, ((dd dep).map Prod.fst).Nodup

theorem merge_dep_keys_nodup (dep_keys : List String) (depends : String → Obj)
    (j : Json) (dd : String → Obj)
    (h : merge_dep_keys dep_keys depends j = some dd)
    (hnd : AllNodup depends) : AllNodup dd := by
  induction dep_keys generalizing depends with
  | nil =>
      simp only [merge_dep_keys, List.foldlM] at h
      cases h
      exact hnd
  | cons dep0 rest ih =>
      simp only [merge_dep_keys, List.foldlM_cons] at h
      cases j with
      | null => simp [jget_default] at h
      | b bo => simp [jget_default] at h
      | num n => simp [jget_default] at h
      | str s => simp [jget_default] at h
      | obj fields =>
          have hj : jget_default (Json.obj fields) dep0
              = some (match dget fields dep0 with
                  | some v => v
                  | none => Json.obj []) := rfl
          rw [hj] at h
          cases h3 : dget fields dep0 with
          | none =>
              rw [h3] at h
              simp only [as_fields, Option.some_bind] at h
              refine ih _ h (fun dep => ?_)
              dsimp only
              by_cases hd : dep = dep0
              · rw [if_pos hd]
                exact dupdate_nodup _ _ (hnd dep)
              · rw [if_neg hd]
                exact hnd dep
          | some w =>
              rw [h3] at h
              cases w with
              | null => simp [as_fields] at h
              | b bo => simp [as_fields] at h
              | num n => simp [as_fields] at h
              | str s => simp [as_fields] at h
              | obj o =>
                  simp only [as_fields, Option.some_bind] at h
                  refine ih _ h (fun dep => ?_)
                  dsimp only
                  by_cases hd : dep = dep0
                  · rw [if_pos hd]
                    exact dupdate_nodup _ _ (hnd dep)
                  · rw [if_neg hd]
                    exact hnd dep

theorem flatten_fold_nodup (dists : List DistMeta) (dep_keys : List String)
    (st0 st : (String → Obj) × List LogEntry)
    (h : dists.foldlM (flatten_step dep_keys) st0 = some st)
    (hnd : AllNodup st0.1) : AllNodup st.1 := by
  induction dists generalizing st0 with
  | nil =>
      simp only [List.foldlM_nil, Option.pure_def, Option.some.injEq] at h
      rw [← h]
      exact hnd
  | cons d rest ih =>
      simp only [List.foldlM_cons] at h
      simp only [flatten_step] at h
      cases hg : (get_dist_egginfo_json d).1 with
      | none =>
          rw [hg] at h
          simp only [Option.some_bind] at h
          exact ih _ h hnd
      | some obj =>
          rw [hg] at h
          dsimp only [] at h
          cases hf : jfalsy obj with
          | true =>
              rw [hf, if_pos rfl] at h
              exact ih _ h hnd
          | false =>
              rw [hf, if_neg Bool.false_ne_true] at h
              cases hm : merge_dep_keys dep_keys st0.1 obj with
              | none =>
                  rw [hm] at h
                  simp at h
              | some ddm =>
                  rw [hm] at h
                  simp only [Option.map_some', Option.some_bind] at h
                  exact ih _ h (merge_dep_keys_nodup _ _ _ _ hm hnd)

theorem dget_none_of_not_mem {V : Type} (d : Dict V) (k : String)
    (h : k ∉ d.map Prod.fst) : dget d k = none := by
  induction d with
  | nil => rfl
  | cons hd tl ih =>
      simp only [List.map_cons, List.mem_cons] at h
      push_neg at h
      simp only [dget]
      rw [if_neg (fun he => h.1 he.symm), ih h.2]

theorem dget_filter_not_none (l : Obj) (h : (l.map Prod.fst).Nodup) (k : String) :
    dget (l.filter not_none) k = drop_null k (dget l k) := by
  induction l with
  | nil => simp [dget, drop_null]
  | cons hd tl ih =>
      obtain ⟨k0, v0⟩ := hd
      simp only [List.map_cons, List.nodup_cons] at h
      cases hp : not_none (k0, v0) with
      | true =>
          rw [List.filter_cons_of_pos hp]
          simp only [dget]
          by_cases hk : k0 = k
          · subst hk
            simp [drop_null, hp]
          · rw [if_neg hk, if_neg hk, ih h.2]
      | false =>
          rw [List.filter_cons_of_neg (by simp [hp])]
          simp only [dget]
          by_cases hk : k0 = k
          · subst hk
            rw [if_pos rfl]
            simp only [drop_null, hp, Bool.false_eq_true, if_false]
            apply dget_none_of_not_mem
            intro hc
            rcases List.mem_map.mp hc with ⟨kv, hmem, hfst⟩
            exact h.1 (List.mem_map.mpr ⟨kv, List.mem_of_mem_filter hmem, hfst⟩)
          · rw [if_neg hk, ih h.2]

/-- Per-key lookup behaviour of the main loop over the required
distributions: the overlay of every non-skipped json, most distant first. -/
theorem flatten_fold_lookup (dists : List DistMeta) (dep_keys : List String)
    (st0 st : (String → Obj) × List LogEntry)
    (h : dists.foldlM (flatten_step dep_keys) st0 = some st) (dep k : String) :
    dget (st.1 dep) k
      = if dep ∈ dep_keys
          then orelse (overlay_value (dists.filterMap contrib) dep k)
            (dget (st0.1 dep) k)
          else dget (st0.1 dep) k := by
  induction dists generalizing st0 with
  | nil =>
      simp only [List.foldlM_nil, Option.pure_def, Option.some.injEq] at h
      rw [← h]
      simp [overlay_value]
  | cons d rest ih =>
      simp only [List.foldlM_cons] at h
      simp only [flatten_step] at h
      cases hg : (get_dist_egginfo_json d).1 with
      | none =>
          rw [hg] at h
          simp only [Option.some_bind] at h
          have hcd : contrib d = none := by simp [contrib, hg]
          simp only [List.filterMap_cons, hcd]
          exact ih (st0.1, st0.2 ++ (get_dist_egginfo_json d).2) h
      | some obj =>
          rw [hg] at h
          dsimp only [] at h
          cases hf : jfalsy obj with
          | true =>
              rw [hf, if_pos rfl] at h
              have hcd : contrib d = none := by simp [contrib, hg, hf]
              simp only [List.filterMap_cons, hcd]
              exact ih (st0.1, st0.2 ++ (get_dist_egginfo_json d).2) h
          | false =>
              rw [hf, if_neg Bool.false_ne_true] at h
              cases hm : merge_dep_keys dep_keys st0.1 obj with
              | none =>
                  rw [hm] at h
                  simp at h
              | some ddm =>
                  rw [hm] at h
                  simp only [Option.map_some', Option.some_bind] at h
                  have hcd : contrib d = some obj := by simp [contrib, hg, hf]
                  simp only [List.filterMap_cons, hcd]
                  have hmerge := merge_dep_keys_lookup dep_keys st0.1 obj ddm hm dep k
                  have hrest := ih _ h
                  rw [hrest, hmerge, overlay_value_cons]
                  by_cases hdep : dep ∈ dep_keys
                  · rw [if_pos hdep, if_pos hdep, if_pos hdep, orelse_assoc]
                  · rw [if_neg hdep, if_neg hdep, if_neg hdep]

/-- Lookup behaviour of the final assignment loop on a dict root. -/
theorem assign_filtered_obj (dep_keys : List String) (depends : String → Obj)
    (fields : Obj) :
    ∃ resFields,
      assign_filtered dep_keys depends (Json.obj fields) = some (Json.obj resFields)
      ∧ ∀ dep, dget resFields dep
          = if dep ∈ dep_keys
              then some (Json.obj ((depends dep).filter not_none))
              else dget fields dep := by
  induction dep_keys generalizing fields with
  | nil =>
      refine ⟨fields, rfl, fun dep => ?_⟩
      simp
  | cons dep0 rest ih =>
      have hstep : assign_filtered (dep0 :: rest) depends (Json.obj fields)
          = assign_filtered rest depends
              (Json.obj (dset fields dep0
                (Json.obj ((depends dep0).filter not_none)))) := rfl
      rw [hstep]
      obtain ⟨resFields, hrun, hlook⟩ := ih (dset fields dep0
        (Json.obj ((depends dep0).filter not_none)))
      refine ⟨resFields, hrun, fun dep => ?_⟩
      rw [hlook dep, dget_dset]
      by_cases hr : dep ∈ rest
      · rw [if_pos hr, if_pos (List.mem_cons_of_mem dep0 hr)]
      · rw [if_neg hr]
        by_cases hd : dep0 = dep
        · subst hd
          rw [if_pos rfl, if_pos (List.mem_cons_self dep0 rest)]
        · rw [if_neg hd, if_neg (by
            intro hc
            rcases List.mem_cons.mp hc with he | hm
            · exact hd he.symm
            · exact hr hm)]

/-- A successful final assignment loop over a nonempty key list forces the
root to be a dict. -/
theorem assign_filtered_success_obj (dep0 : String) (rest : List String)
    (depends : String → Obj) (root : Json) (res : Json)
    (h : assign_filtered (dep0 :: rest) depends root = some res) :
    ∃ rfields, root = Json.obj rfields := by
  cases root with
  | obj rfields => exact ⟨rfields, rfl⟩
  | null => simp [assign_filtered, List.foldlM_cons] at h
  | b bo => simp [assign_filtered, List.foldlM_cons] at h
  | num n => simp [assign_filtered, List.foldlM_cons] at h
  | str s => simp [assign_filtered, List.foldlM_cons] at h

theorem overlay_value_append_one (objs : List Json) (j : Json) (dep k : String) :
    overlay_value (objs ++ [j]) dep k
      = orelse (dlast (dep_fields j dep) k) (overlay_value objs dep k) := by
  simp only [overlay_value, List.foldl_append, List.foldl_cons, List.foldl_nil]

/-- Full per-key characterisation of a successful `flatten_dist_egginfo_json`
run with a source distribution: under every requested dependency key, the
value of `k` is the last declaration in overlay order — resolved ancestors
from the most distant to the closest, then the root itself — with `null`
declarations dropped from the final mapping. -/
theorem flatten_lookup_spec (s : DistMeta) (resolved : List DistMeta)
    (dep_keys : List String) (res : Json) (logs : List LogEntry) (dep : String)
    (hrun : flatten_dist_egginfo_json (some s) resolved dep_keys = some (res, logs))
    (hdep : dep ∈ dep_keys) :
    ∃ resFields depsL,
      res = Json.obj resFields
      ∧ dget resFields dep = some (Json.obj depsL)
      ∧ ∀ k, dget depsL k
          = drop_null k (overlay_value
              ((iter_dist_requires (some s) resolved).filterMap contrib
                ++ [root_json s])
              dep k) := by
  simp only [flatten_dist_egginfo_json] at hrun
  cases hfold : (iter_dist_requires (some s) resolved).foldlM
      (flatten_step dep_keys) (fun _ => [], (get_dist_egginfo_json s).2) with
  | none =>
      rw [hfold] at hrun
      simp at hrun
  | some st =>
      rw [hfold] at hrun
      dsimp only [] at hrun
      cases hm : merge_dep_keys dep_keys st.1 (root_json s) with
      | none =>
          rw [show (match (get_dist_egginfo_json s).1 with
              | some j => if jfalsy j then Json.obj [] else j
              | none => Json.obj []) = root_json s from rfl, hm] at hrun
          simp at hrun
      | some dd =>
          rw [show (match (get_dist_egginfo_json s).1 with
              | some j => if jfalsy j then Json.obj [] else j
              | none => Json.obj []) = root_json s from rfl, hm] at hrun
          simp only [Option.map_some', Option.some_bind] at hrun
          cases ha : assign_filtered dep_keys dd (root_json s) with
          | none =>
              rw [ha] at hrun
              simp at hrun
          | some final =>
              rw [ha] at hrun
              simp only [Option.some.injEq, Prod.mk.injEq] at hrun
              obtain ⟨hres, _hlogs⟩ := hrun
              -- a nonempty key list and a successful assignment force a
              -- dict-shaped root
              obtain ⟨dk0, drest, hkeys⟩ : ∃ dk0 drest, dep_keys = dk0 :: drest := by
                cases dep_keys with
                | nil => cases hdep
                | cons a l => exact ⟨a, l, rfl⟩
              obtain ⟨rfields, hroot⟩ := by
                rw [hkeys] at ha
                exact assign_filtered_success_obj dk0 drest dd (root_json s) final ha
              rw [hroot] at ha
              obtain ⟨resFields, hrun2, hlook⟩ := assign_filtered_obj dep_keys dd rfields
              rw [ha] at hrun2
              cases hrun2
              refine ⟨resFields, (dd dep).filter not_none, hres.symm, ?_, ?_⟩
              · rw [hlook dep, if_pos hdep]
              · intro k
                have hnd : AllNodup dd := by
                  refine merge_dep_keys_nodup dep_keys st.1 (root_json s) dd hm ?_
                  refine flatten_fold_nodup _ dep_keys _ st hfold ?_
                  intro d0
                  simp
                rw [dget_filter_not_none (dd dep) (hnd dep) k]
                have hdd := merge_dep_keys_lookup dep_keys st.1 (root_json s) dd hm dep k
                have hst := flatten_fold_lookup (iter_dist_requires (some s) resolved)
                  dep_keys _ st hfold dep k
                rw [if_pos hdep] at hdd hst
                simp only [dget] at hst
                rw [hdd, hst, overlay_value_append_one]
                simp

/-! ### Claim C1: overlay order and the three-package example -/

/-- Package A of the example scenario: declares `jquery ~3.1.0`. -/
def example_pkg1 : DistMeta :=
  .ok (Json.obj [("name", .str "site"),
    ("dependencies", Json.obj [("jquery", .str "~3.1.0")])])

/-- Package B of the example scenario: declares `underscore ~1.8.3`. -/
def example_pkg2 : DistMeta :=
  .ok (Json.obj [("name", .str "site"),
    ("dependencies", Json.obj [("underscore", .str "~1.8.3")])])

/-- Package C of the example scenario: depends on A and B and declares
`backbone ~1.3.2`. -/
def example_pkg3 : DistMeta :=
  .ok (Json.obj [("dependencies", Json.obj [("backbone", .str "~1.3.2")])])

/-- The object stored under one dependency key of a flattening result. -/
def result_dep_map (r : Option (Json × List LogEntry)) (dep : String) : Option Obj :=
  match r with
  | some (Json.obj fields, _) =>
      match dget fields dep with
      | some (Json.obj l) => some l
      | _ => none
  | _ => none

/-- C1: overlays are applied from the most-distant ancestor toward the root:
for every successful flattening with a source distribution and every
requested dependency key, the merged value of each key is the last
declaration in overlay order — resolved ancestors from the most distant to
the closest, then the root distribution itself last — with `null` entries
dropped; in particular, in the three-package example (A declares
`jquery ~3.1.0`, B declares `underscore ~1.8.3`, C depends on A and B and
declares `backbone ~1.3.2`) the flattened `dependencies` mapping equals
`jquery ~3.1.0, underscore ~1.8.3, backbone ~1.3.2`. -/
theorem flatten_child_overrides_parent :
    (∀ (s : DistMeta) (resolved : List DistMeta) (dep_keys : List String)
        (res : Json) (logs : List LogEntry) (dep : String),
      flatten_dist_egginfo_json (some s) resolved dep_keys = some (res, logs) →
      dep ∈ dep_keys →
      ∃ resFields depsL,
        res = Json.obj resFields
        ∧ dget resFields dep = some (Json.obj depsL)
        ∧ ∀ k, dget depsL k
            = drop_null k (overlay_value
                ((iter_dist_requires (some s) resolved).filterMap contrib
                  ++ [root_json s])
                dep k))
    ∧ (∃ L, result_dep_map
          (flatten_dist_egginfo_json (some example_pkg3)
            [example_pkg1, example_pkg2] DEP_KEYS) "dependencies" = some L
        ∧ ∀ k, dget L k
            = dget [("jquery", Json.str "~3.1.0"),
                    ("underscore", Json.str "~1.8.3"),
                    ("backbone", Json.str "~1.3.2")] k) := by
  constructor
  · intro s resolved dep_keys res logs dep hrun hdep
    exact flatten_lookup_spec s resolved dep_keys res logs dep hrun hdep
  · refine ⟨[("underscore", Json.str "~1.8.3"), ("jquery", Json.str "~3.1.0"),
      ("backbone", Json.str "~1.3.2")], by rfl, ?_⟩
    intro k
    by_cases h1 : "underscore" = k
    · subst h1; rfl
    · by_cases h2 : "jquery" = k
      · subst h2; rfl
      · by_cases h3 : "backbone" = k
        · subst h3; rfl
        · simp only [dget, if_neg h1, if_neg h2, if_neg h3]

/-- Witness for C1: the general conjunct applied to the concrete example run,
with both hypotheses discharged on concrete input. -/
theorem flatten_child_overrides_parent_witness :
    ∃ resFields depsL,
      Json.obj [("dependencies", Json.obj
          [("underscore", .str "~1.8.3"), ("jquery", .str "~3.1.0"),
           ("backbone", .str "~1.3.2")]),
         ("devDependencies", Json.obj [])] = Json.obj resFields
      ∧ dget resFields "dependencies" = some (Json.obj depsL)
      ∧ ∀ k, dget depsL k
          = drop_null k (overlay_value
              ((iter_dist_requires (some example_pkg3)
                  [example_pkg1, example_pkg2]).filterMap contrib
                ++ [root_json example_pkg3])
              "dependencies" k) :=
  flatten_child_overrides_parent.1 example_pkg3 [example_pkg1, example_pkg2]
    DEP_KEYS
    (Json.obj [("dependencies", Json.obj
        [("underscore", .str "~1.8.3"), ("jquery", .str "~3.1.0"),
         ("backbone", .str "~1.3.2")]),
       ("devDependencies", Json.obj [])])
    [(.debug, "found '%s' for '%s'."),
     (.debug, "found '%s' for '%s'."),
     (.debug, "merging '%s' for required '%s'"),
     (.debug, "found '%s' for '%s'."),
     (.debug, "merging '%s' for required '%s'"),
     (.debug, "merging '%s' for target '%s'")]
    "dependencies" (by rfl) (by decide)

/-! ### Claim C2: null-valued entries are deletions -/

/-- A source distribution declaring `jquery: null` (a deletion) and
`backbone ~1.3.2` over an ancestor that declares `jquery ~3.1.0`. -/
def example_null_src : DistMeta :=
  .ok (Json.obj [("dependencies",
    Json.obj [("jquery", Json.null), ("backbone", Json.str "~1.3.2")])])

/-- The ancestor distribution declaring `jquery ~3.1.0`. -/
def example_null_anc : DistMeta :=
  .ok (Json.obj [("dependencies", Json.obj [("jquery", Json.str "~3.1.0")])])

/-- C2: an entry whose merged (last-overlaid) value is `null` — declared at
any level, including the root — is absent from the per-key mapping of the
result; entries with non-null merged values are retained; and a flattening
without a source distribution yields an empty mapping under every requested
key. -/
theorem flatten_null_deleted :
    (∀ (s : DistMeta) (resolved : List DistMeta) (dep_keys : List String)
        (res : Json) (logs : List LogEntry) (dep k : String),
      flatten_dist_egginfo_json (some s) resolved dep_keys = some (res, logs) →
      dep ∈ dep_keys →
      overlay_value ((iter_dist_requires (some s) resolved).filterMap contrib
        ++ [root_json s]) dep k = some Json.null →
      ∃ resFields depsL,
        res = Json.obj resFields
        ∧ dget resFields dep = some (Json.obj depsL)
        ∧ dget depsL k = none)
    ∧ (∀ (s : DistMeta) (resolved : List DistMeta) (dep_keys : List String)
        (res : Json) (logs : List LogEntry) (dep k : String) (v : Json),
      flatten_dist_egginfo_json (some s) resolved dep_keys = some (res, logs) →
      dep ∈ dep_keys →
      overlay_value ((iter_dist_requires (some s) resolved).filterMap contrib
        ++ [root_json s]) dep k = some v →
      v ≠ Json.null →
      ∃ resFields depsL,
        res = Json.obj resFields
        ∧ dget resFields dep = some (Json.obj depsL)
        ∧ dget depsL k = some v)
    ∧ (∀ (resolved : List DistMeta) (dep_keys : List String)
        (res : Json) (logs : List LogEntry) (dep : String),
      flatten_dist_egginfo_json none resolved dep_keys = some (res, logs) →
      dep ∈ dep_keys →
      ∃ resFields,
        res = Json.obj resFields
        ∧ dget resFields dep = some (Json.obj [])) := by
  refine ⟨?_, ?_, ?_⟩
  · intro s resolved dep_keys res logs dep k hrun hdep hov
    obtain ⟨resFields, depsL, h1, h2, h3⟩ :=
      flatten_lookup_spec s resolved dep_keys res logs dep hrun hdep
    refine ⟨resFields, depsL, h1, h2, ?_⟩
    rw [h3 k, hov]
    rfl
  · intro s resolved dep_keys res logs dep k v hrun hdep hov hne
    obtain ⟨resFields, depsL, h1, h2, h3⟩ :=
      flatten_lookup_spec s resolved dep_keys res logs dep hrun hdep
    refine ⟨resFields, depsL, h1, h2, ?_⟩
    rw [h3 k, hov]
    cases v with
    | null => exact absurd rfl hne
    | b bo => rfl
    | num n => rfl
    | str s => rfl
    | obj fields => rfl
  · intro resolved dep_keys res logs dep hrun hdep
    obtain ⟨resFields, hrun2, hlook⟩ := assign_filtered_obj dep_keys (fun _ => []) []
    simp only [flatten_dist_egginfo_json, iter_dist_requires,
      List.foldlM_nil, Option.pure_def] at hrun
    rw [hrun2] at hrun
    simp only [Option.some.injEq, Prod.mk.injEq] at hrun
    obtain ⟨hres, _⟩ := hrun
    refine ⟨resFields, hres.symm, ?_⟩
    rw [hlook dep, if_pos hdep]
    rfl

/-- Witness for C2: the deletion and retention conjuncts applied to a
concrete run where the root deletes `jquery` with a `null` and declares
`backbone`. -/
theorem flatten_null_deleted_witness :
    (∃ resFields depsL,
      Json.obj [("dependencies", Json.obj [("backbone", Json.str "~1.3.2")]),
        ("devDependencies", Json.obj [])] = Json.obj resFields
      ∧ dget resFields "dependencies" = some (Json.obj depsL)
      ∧ dget depsL "jquery" = none)
    ∧ (∃ resFields depsL,
      Json.obj [("dependencies", Json.obj [("backbone", Json.str "~1.3.2")]),
        ("devDependencies", Json.obj [])] = Json.obj resFields
      ∧ dget resFields "dependencies" = some (Json.obj depsL)
      ∧ dget depsL "backbone" = some (Json.str "~1.3.2")) := by
  constructor
  · exact flatten_null_deleted.1 example_null_src [example_null_anc] DEP_KEYS
      (Json.obj [("dependencies", Json.obj [("backbone", Json.str "~1.3.2")]),
        ("devDependencies", Json.obj [])])
      [(.debug, "found '%s' for '%s'."),
       (.debug, "found '%s' for '%s'."),
       (.debug, "merging '%s' for required '%s'"),
       (.debug, "merging '%s' for target '%s'")]
      "dependencies" "jquery" (by rfl) (by decide) (by rfl)
  · exact flatten_null_deleted.2.1 example_null_src [example_null_anc] DEP_KEYS
      (Json.obj [("dependencies", Json.obj [("backbone", Json.str "~1.3.2")]),
        ("devDependencies", Json.obj [])])
      [(.debug, "found '%s' for '%s'."),
       (.debug, "found '%s' for '%s'."),
       (.debug, "merging '%s' for required '%s'"),
       (.debug, "merging '%s' for target '%s'")]
      "dependencies" "backbone" (Json.str "~1.3.2") (by rfl) (by decide)
      (by rfl) (by intro h; exact Json.noConfusion h)

/-! ### Claim C7: bad metadata is skipped, never fatal -/

/-- The merged dicts of the main loop depend only on the incoming merged
dicts, never on the log tail carried along. -/
theorem flatten_fold_proj (dists : List DistMeta) (dep_keys : List String)
    (st0 st0' : (String → Obj) × List LogEntry) (h1 : st0.1 = st0'.1) :
    (dists.foldlM (flatten_step dep_keys) st0).map Prod.fst
      = (dists.foldlM (flatten_step dep_keys) st0').map Prod.fst := by
  induction dists generalizing st0 st0' with
  | nil => simp [h1]
  | cons d rest ih =>
      simp only [List.foldlM_cons]
      simp only [flatten_step]
      cases hg : (get_dist_egginfo_json d).1 with
      | none =>
          simp only [Option.some_bind]
          exact ih _ _ h1
      | some obj =>
          dsimp only []
          cases hf : jfalsy obj with
          | true =>
              rw [if_pos rfl, if_pos rfl]
              exact ih _ _ h1
          | false =>
              rw [if_neg Bool.false_ne_true, if_neg Bool.false_ne_true, h1]
              cases hm : merge_dep_keys dep_keys st0'.1 obj with
              | none => simp
              | some dd =>
                  simp only [Option.map_some', Option.some_bind]
                  exact ih _ _ rfl

/-- Inserting a distribution whose metadata json could not be obtained
anywhere in the loop does not change the merged dicts nor whether the loop
succeeds. -/
theorem flatten_fold_skip (bad : DistMeta)
    (hbad : (get_dist_egginfo_json bad).1 = none)
    (L1 L2 : List DistMeta) (dep_keys : List String)
    (st0 : (String → Obj) × List LogEntry) :
    ((L1 ++ [bad] ++ L2).foldlM (flatten_step dep_keys) st0).map Prod.fst
      = ((L1 ++ L2).foldlM (flatten_step dep_keys) st0).map Prod.fst := by
  rw [List.foldlM_append, List.foldlM_append, List.foldlM_append]
  cases hfold : L1.foldlM (flatten_step dep_keys) st0 with
  | none => rfl
  | some st1 =>
      have hstep : List.foldlM (flatten_step dep_keys) st1 [bad]
          = some (st1.1, st1.2 ++ (get_dist_egginfo_json bad).2) := by
        simp only [List.foldlM_cons, List.foldlM_nil, flatten_step, hbad]
        rfl
      show ((List.foldlM (flatten_step dep_keys) st1 [bad]).bind
          fun init => List.foldlM (flatten_step dep_keys) init L2).map Prod.fst
        = (List.foldlM (flatten_step dep_keys) st1 L2).map Prod.fst
      rw [hstep, Option.some_bind]
      exact flatten_fold_proj L2 dep_keys _ _ rfl

/-- Inserting a distribution with unobtainable metadata into the resolved
requirements does not change the value `flatten_dist_egginfo_json` returns
(only the log differs), and in particular cannot make it raise. -/
theorem flatten_value_skip (source_dist : Option DistMeta)
    (pre post : List DistMeta) (bad : DistMeta)
    (hbad : (get_dist_egginfo_json bad).1 = none) (dep_keys : List String) :
    (flatten_dist_egginfo_json source_dist (pre ++ [bad] ++ post) dep_keys).map
        Prod.fst
      = (flatten_dist_egginfo_json source_dist (pre ++ post) dep_keys).map
        Prod.fst := by
  cases source_dist with
  | none => rfl
  | some s =>
      simp only [flatten_dist_egginfo_json]
      have hrev : iter_dist_requires (some s) (pre ++ [bad] ++ post)
          = post.reverse ++ [bad] ++ pre.reverse := by
        simp [iter_dist_requires, List.reverse_append]
      have hrev2 : iter_dist_requires (some s) (pre ++ post)
          = post.reverse ++ pre.reverse := by
        simp [iter_dist_requires, List.reverse_append]
      rw [hrev, hrev2]
      have hfolds := flatten_fold_skip bad hbad post.reverse pre.reverse dep_keys
        (fun _ => [], (get_dist_egginfo_json s).2)
      cases hfa : (post.reverse ++ [bad] ++ pre.reverse).foldlM
          (flatten_step dep_keys) (fun _ => [], (get_dist_egginfo_json s).2) with
      | none =>
          rw [hfa] at hfolds
          have : ((post.reverse ++ pre.reverse).foldlM (flatten_step dep_keys)
              (fun _ => [], (get_dist_egginfo_json s).2)) = none := by
            cases hfb : (post.reverse ++ pre.reverse).foldlM (flatten_step dep_keys)
                (fun _ => [], (get_dist_egginfo_json s).2) with
            | none => rfl
            | some stb => rw [hfb] at hfolds; simp at hfolds
          rw [this]
      | some sta =>
          rw [hfa] at hfolds
          cases hfb : (post.reverse ++ pre.reverse).foldlM (flatten_step dep_keys)
              (fun _ => [], (get_dist_egginfo_json s).2) with
          | none => rw [hfb] at hfolds; simp at hfolds
          | some stb =>
              rw [hfb] at hfolds
              simp only [Option.map_some', Option.some.injEq] at hfolds
              dsimp only []
              rw [hfolds]
              cases hm : merge_dep_keys dep_keys stb.1
                  (match (get_dist_egginfo_json s).1 with
                    | some j => if jfalsy j then Json.obj [] else j
                    | none => Json.obj []) with
              | none => simp
              | some dd =>
                  simp only [Option.map_some']
                  cases ha : assign_filtered dep_keys dd
                      (match (get_dist_egginfo_json s).1 with
                        | some j => if jfalsy j then Json.obj [] else j
                        | none => Json.obj []) with
                  | none => simp
                  | some final => simp

/-- Counterexample to C7 as stated: skipping a distribution with missing
metadata emits no warning-level record at all — the code logs at debug
severity for a missing file (and at error severity for unreadable or
invalid files), so the "logged warning" of the claim does not occur. -/
theorem flatten_missing_no_warning_counterexample :
    flatten_dist_egginfo_json (some example_pkg3) [DistMeta.missing] DEP_KEYS
      = some (Json.obj [("dependencies", Json.obj [("backbone", .str "~1.3.2")]),
          ("devDependencies", Json.obj [])],
        [(.debug, "found '%s' for '%s'."), (.debug, "no '%s' for '%s'"),
         (.debug, "merging '%s' for target '%s'")])
    ∧ ¬ ∃ e ∈ [((LogLevel.debug : LogLevel), "found '%s' for '%s'."),
        (.debug, "no '%s' for '%s'"),
        (.debug, "merging '%s' for target '%s'")], e.1 = LogLevel.warning :=
  ⟨by rfl, by decide⟩

/-- C7 (amended): a distribution whose metadata file is missing, unreadable
or not valid JSON yields no object from `get_dist_egginfo_json`;
`flatten_dist_egginfo_json` skips it — its presence changes neither the
returned value nor whether the call succeeds, and the skipping step merely
appends that distribution's log records (debug severity for a missing file,
error severity for an unreadable or invalid one); such metadata problems
never raise an exception out of the flattening. -/
theorem flatten_skips_bad_metadata :
    (∀ m : DistMeta, m = .missing ∨ m = .ioError ∨ m = .invalid →
      (get_dist_egginfo_json m).1 = none)
    ∧ (∀ (source_dist : Option DistMeta) (pre post : List DistMeta)
        (bad : DistMeta) (dep_keys : List String),
      bad = .missing ∨ bad = .ioError ∨ bad = .invalid →
      (flatten_dist_egginfo_json source_dist (pre ++ [bad] ++ post) dep_keys).map
          Prod.fst
        = (flatten_dist_egginfo_json source_dist (pre ++ post) dep_keys).map
          Prod.fst)
    ∧ (∀ (dep_keys : List String) (st : (String → Obj) × List LogEntry)
        (bad : DistMeta), (get_dist_egginfo_json bad).1 = none →
      flatten_step dep_keys st bad
        = some (st.1, st.2 ++ (get_dist_egginfo_json bad).2))
    ∧ ((get_dist_egginfo_json .missing).2
        = [(LogLevel.debug, "no '%s' for '%s'")]
      ∧ (get_dist_egginfo_json .ioError).2
        = [(LogLevel.error, "I/O error on reading of '%s' for '%s'.")]
      ∧ (get_dist_egginfo_json .invalid).2
        = [(LogLevel.error, "the '%s' found in '%s' is not a valid json.")]) := by
  have hnone : ∀ m : DistMeta, m = .missing ∨ m = .ioError ∨ m = .invalid →
      (get_dist_egginfo_json m).1 = none := by
    intro m h
    rcases h with h | h | h <;> subst h <;> rfl
  refine ⟨hnone, ?_, ?_, rfl, rfl, rfl⟩
  · intro source_dist pre post bad dep_keys h
    exact flatten_value_skip source_dist pre post bad (hnone bad h) dep_keys
  · intro dep_keys st bad h
    simp only [flatten_step, h]

/-- Witness for C7: inserting a missing-metadata distribution between the two
example ancestors leaves the flattening value unchanged. -/
theorem flatten_skips_bad_metadata_witness :
    (flatten_dist_egginfo_json (some example_pkg3)
        ([example_pkg1] ++ [DistMeta.missing] ++ [example_pkg2]) DEP_KEYS).map
        Prod.fst
      = (flatten_dist_egginfo_json (some example_pkg3)
        ([example_pkg1] ++ [example_pkg2]) DEP_KEYS).map Prod.fst :=
  flatten_skips_bad_metadata.2.1 (some example_pkg3) [example_pkg1]
    [example_pkg2] DistMeta.missing DEP_KEYS (Or.inl rfl)

/-! ### Embedding of `calmjs/loaderplugin.py` -/

/-- The observable outcome of processing one entry point in
`LoaderPluginRegistry._init`: `entry_point.load()` raising `ImportError`,
the loaded class failing the `BaseLoaderPluginHandler` subclass check,
instantiation raising, or a successfully instantiated handler (identified
abstractly by a number). -/
inductive EPOutcome where
  | importFail
  | notSubclass
  | initFail
  | ok (inst : Nat)

/-- One raw entry point: its advertised name and what loading it does. -/
structure EntryPoint where
  name : String
  outcome : EPOutcome

/-- The message template of the override warning in
`LoaderPluginRegistry._init`. -/
def OVERRIDE_MSG : String :=
  "loader plugin handler for '%s' was already registered to an instance of '%s:%s'; '%s' will now override this registration"

/-- The loop body of `LoaderPluginRegistry._init` for one raw entry point:
failures are logged and skipped; a successful instantiation is stored under
`entry_point.name`, warning first when that name was already taken. -/
def loader_plugin_step (st : Dict Nat × List LogEntry) (ep : EntryPoint) :
    Dict Nat × List LogEntry :=
  match ep.outcome with
  | .importFail =>
      (st.1, st.2 ++ [(.warning,
        "registry '%s' failed to load loader plugin handler for entry point '%s'")])
  | .notSubclass =>
      (st.1, st.2 ++ [(.warning,
        "entry point '%s' does not lead to a valid loader plugin handler class")])
  | .initFail =>
      (st.1, st.2 ++ [(.error,
        "the loader plugin class registered at '%s' failed to be instantiated with the following exception")])
  | .ok inst =>
      let warn : List LogEntry :=
        match dget st.1 ep.name with
        | some _ => [(.warning, OVERRIDE_MSG)]
        | none => []
      (dset st.1 ep.name inst, st.2 ++ warn)

/-- `LoaderPluginRegistry._init`: process every raw entry point in order,
starting from an empty records dict. -/
def loader_registry_init (eps : List EntryPoint) : Dict Nat × List LogEntry :=
  eps.foldl loader_plugin_step ([], [])

/-- `LoaderPluginRegistry.get_record`: `self.records.get(name)`. -/
def get_record (records : Dict Nat) (name : String) : Option Nat :=
  dget records name

/-- The last successfully instantiated registration under a name, if any
(specification-side helper naming the expected winner). -/
def last_ok (eps : List EntryPoint) (n : String) : Option Nat :=
  eps.foldl
    (fun acc ep =>
      match ep.outcome with
      | .ok inst => if ep.name = n then some inst else acc
      | _ => acc)
    none

theorem last_ok_foldl (eps : List EntryPoint) (n : String) (acc : Option Nat) :
    eps.foldl
        (fun a ep =>
          match ep.outcome with
          | .ok inst => if ep.name = n then some inst else a
          | _ => a)
        acc
      = orelse (last_ok eps n) acc := by
  induction eps generalizing acc with
  | nil => simp [last_ok]
  | cons hd tl ih =>
      simp only [last_ok, List.foldl_cons]
      cases ho : hd.outcome with
      | importFail =>
          dsimp only []
          rw [ih]
          rfl
      | notSubclass =>
          dsimp only []
          rw [ih]
          rfl
      | initFail =>
          dsimp only []
          rw [ih]
          rfl
      | ok inst =>
          dsimp only []
          by_cases hn : hd.name = n
          · rw [if_pos hn, if_pos hn, ih, orelse_assoc]
            simp
          · rw [if_neg hn, if_neg hn, ih]
            rfl

theorem loader_init_lookup (eps : List EntryPoint)
    (st : Dict Nat × List LogEntry) (n : String) :
    dget ((eps.foldl loader_plugin_step st).1) n
      = orelse (last_ok eps n) (dget st.1 n) := by
  induction eps generalizing st with
  | nil => simp [last_ok]
  | cons hd tl ih =>
      simp only [last_ok, List.foldl_cons]
      rw [ih (loader_plugin_step st hd), last_ok_foldl]
      simp only [loader_plugin_step]
      cases ho : hd.outcome with
      | importFail =>
          dsimp only []
          simp [orelse_assoc]
      | notSubclass =>
          dsimp only []
          simp [orelse_assoc]
      | initFail =>
          dsimp only []
          simp [orelse_assoc]
      | ok inst =>
          dsimp only []
          rw [dget_dset]
          by_cases hn : hd.name = n
          · rw [if_pos hn, if_pos hn, orelse_assoc]
            simp
          · rw [if_neg hn, if_neg hn, orelse_assoc]
            simp

theorem loader_keys_sub (eps : List EntryPoint)
    (st : Dict Nat × List LogEntry) (k : String)
    (h : dget ((eps.foldl loader_plugin_step st).1) k ≠ none) :
    k ∈ eps.map EntryPoint.name ∨ dget st.1 k ≠ none := by
  induction eps generalizing st with
  | nil => exact Or.inr h
  | cons hd tl ih =>
      simp only [List.foldl_cons] at h
      rcases ih (loader_plugin_step st hd) h with hmem | hne
      · exact Or.inl (by simp [hmem])
      · simp only [loader_plugin_step] at hne
        cases ho : hd.outcome with
        | importFail => rw [ho] at hne; exact Or.inr hne
        | notSubclass => rw [ho] at hne; exact Or.inr hne
        | initFail => rw [ho] at hne; exact Or.inr hne
        | ok inst =>
            rw [ho] at hne
            dsimp only [] at hne
            rw [dget_dset] at hne
            by_cases hn : hd.name = k
            · exact Or.inl (by simp [← hn])
            · rw [if_neg hn] at hne
              exact Or.inr hne

theorem loader_logs_mono (eps : List EntryPoint)
    (st : Dict Nat × List LogEntry) (e : LogEntry) (he : e ∈ st.2) :
    e ∈ (eps.foldl loader_plugin_step st).2 := by
  induction eps generalizing st with
  | nil => exact he
  | cons hd tl ih =>
      simp only [List.foldl_cons]
      refine ih _ ?_
      simp only [loader_plugin_step]
      cases hd.outcome with
      | importFail => exact List.mem_append_left _ he
      | notSubclass => exact List.mem_append_left _ he
      | initFail => exact List.mem_append_left _ he
      | ok inst => exact List.mem_append_left _ he

/-- C10: in the loader-plugin registry, a later-loaded entry point that
registers under an already-taken name overrides the earlier registration in
the records table — `get_record` always answers with the last successful
registration under the name, a warning is logged on the override, and no
key beyond the entry points' own names (in particular no fallback-qualified
name that would keep the loser reachable) ever appears in the table. -/
theorem loader_plugin_last_writer_wins :
    (∀ (eps : List EntryPoint) (n : String),
      get_record (loader_registry_init eps).1 n = last_ok eps n)
    ∧ (∀ (l1 l2 : List EntryPoint) (ep : EntryPoint) (inst : Nat),
      ep.outcome = .ok inst →
      get_record (loader_registry_init l1).1 ep.name ≠ none →
      (LogLevel.warning, OVERRIDE_MSG) ∈ (loader_registry_init (l1 ++ ep :: l2)).2)
    ∧ (∀ (eps : List EntryPoint) (k : String),
      get_record (loader_registry_init eps).1 k ≠ none →
      k ∈ eps.map EntryPoint.name) := by
  refine ⟨?_, ?_, ?_⟩
  · intro eps n
    show dget ((eps.foldl loader_plugin_step ([], [])).1) n = last_ok eps n
    rw [loader_init_lookup]
    simp [dget]
  · intro l1 l2 ep inst ho hprior
    show (LogLevel.warning, OVERRIDE_MSG)
      ∈ ((l1 ++ ep :: l2).foldl loader_plugin_step ([], [])).2
    rw [List.foldl_append, List.foldl_cons]
    refine loader_logs_mono l2 _ _ ?_
    simp only [loader_plugin_step, ho]
    obtain ⟨old, hold⟩ := Option.ne_none_iff_exists'.mp hprior
    have hold' : dget (List.foldl loader_plugin_step ([], []) l1).1 ep.name
        = some old := hold
    rw [hold']
    simp
  · intro eps k h
    rcases loader_keys_sub eps ([], []) k h with hmem | hne
    · exact hmem
    · exact absurd rfl hne

/-- Witness for C10: two entry points both named `text`; the second
registration warns and wins, and the only key is `text`. -/
theorem loader_plugin_last_writer_wins_witness :
    ((LogLevel.warning, OVERRIDE_MSG)
      ∈ (loader_registry_init
          [⟨"text", .ok 1⟩, ⟨"text", .ok 2⟩]).2)
    ∧ "text" ∈ ([⟨"text", .ok 1⟩, ⟨"text", .ok 2⟩] :
        List EntryPoint).map EntryPoint.name := by
  constructor
  · exact loader_plugin_last_writer_wins.2.1 [⟨"text", .ok 1⟩] [] ⟨"text", .ok 2⟩ 2
      rfl (by decide)
  · exact loader_plugin_last_writer_wins.2.2 [⟨"text", .ok 1⟩, ⟨"text", .ok 2⟩]
      "text" (by decide)

/-! ### Embedding of `write_json_file` (the `--init` JSON-writing path)

`json.dumps(value, indent=4, sort_keys=True, separators=(',', ': '))` is
embedded below: Python compares strings code point by code point, sorts the
items of every object by key, and renders with a four-space indent per
nesting level. -/

/-- Python `<` on strings, as lexicographic comparison of code points. -/
def pyLtChars : List Char → List Char → Bool
  | [], [] => false
  | [], _ :: _ => true
  | _ :: _, [] => false
  | a :: as, b :: bs =>
      if a.toNat < b.toNat then true
      else if b.toNat < a.toNat then false
      else pyLtChars as bs

/-- Python `<=` on strings (total order, `a <= b` iff not `b < a`). -/
def pyStrLe (a b : String) : Bool := !(pyLtChars b.data a.data)

theorem pyLtChars_asymm (x : List Char) : ∀ y, pyLtChars x y = true →
    pyLtChars y x = false := by
  induction x with
  | nil =>
      intro y h
      cases y with
      | nil => cases h
      | cons b bs => rfl
  | cons a as ih =>
      intro y h
      cases y with
      | nil => cases h
      | cons b bs =>
          simp only [pyLtChars] at h ⊢
          by_cases h1 : a.toNat < b.toNat
          · rw [if_neg (Nat.lt_asymm h1), if_pos h1]
          · rw [if_neg h1] at h
            by_cases h2 : b.toNat < a.toNat
            · rw [if_pos h2] at h
              cases h
            · rw [if_neg h2] at h ⊢
              rw [if_neg h1]
              exact ih bs h

theorem pyLtChars_eq_of_not (x : List Char) : ∀ y, pyLtChars x y = false →
    pyLtChars y x = false → x = y := by
  induction x with
  | nil =>
      intro y h1 h2
      cases y with
      | nil => rfl
      | cons b bs => cases h1
  | cons a as ih =>
      intro y h1 h2
      cases y with
      | nil => cases h2
      | cons b bs =>
          simp only [pyLtChars] at h1 h2
          by_cases hab : a.toNat < b.toNat
          · rw [if_pos hab] at h1; cases h1
          · by_cases hba : b.toNat < a.toNat
            · rw [if_pos hba] at h2; cases h2
            · rw [if_neg hab, if_neg hba] at h1
              rw [if_neg hba, if_neg hab] at h2
              have heq : a = b :=
                Char.ext (UInt32.ext (Nat.le_antisymm
                  (Nat.le_of_not_lt hba) (Nat.le_of_not_lt hab)))
              rw [heq, ih bs h1 h2]

theorem pyLtChars_trans (x : List Char) : ∀ y z, pyLtChars x y = true →
    pyLtChars y z = true → pyLtChars x z = true := by
  induction x with
  | nil =>
      intro y z h1 h2
      cases y with
      | nil => cases h1
      | cons b bs =>
          cases z with
          | nil => cases h2
          | cons c cs => rfl
  | cons a as ih =>
      intro y z h1 h2
      cases y with
      | nil => cases h1
      | cons b bs =>
          cases z with
          | nil => cases h2
          | cons c cs =>
              simp only [pyLtChars] at h1 h2 ⊢
              by_cases hab : a.toNat < b.toNat
              · by_cases hbc : b.toNat < c.toNat
                · rw [if_pos (Nat.lt_trans hab hbc)]
                · rw [if_neg hbc] at h2
                  by_cases hcb : c.toNat < b.toNat
                  · rw [if_pos hcb] at h2; cases h2
                  · have hbc' : b.toNat = c.toNat :=
                      Nat.le_antisymm (Nat.le_of_not_lt hcb) (Nat.le_of_not_lt hbc)
                    rw [if_pos (hbc' ▸ hab)]
              · rw [if_neg hab] at h1
                by_cases hba : b.toNat < a.toNat
                · rw [if_pos hba] at h1; cases h1
                · have hab' : a.toNat = b.toNat :=
                    Nat.le_antisymm (Nat.le_of_not_lt hba) (Nat.le_of_not_lt hab)
                  rw [if_neg hba] at h1
                  by_cases hbc : b.toNat < c.toNat
                  · rw [if_pos (hab' ▸ hbc)]
                  · rw [if_neg hbc] at h2
                    by_cases hcb : c.toNat < b.toNat
                    · rw [if_pos hcb] at h2; cases h2
                    · rw [if_neg hcb] at h2
                      rw [if_neg (hab' ▸ hbc), if_neg (hab' ▸ hcb)]
                      exact ih bs cs h1 h2

theorem pyStrLe_total (a b : String) : pyStrLe a b = true ∨ pyStrLe b a = true := by
  by_cases h : pyLtChars b.data a.data = true
  · right
    simp only [pyStrLe, pyLtChars_asymm b.data a.data h, Bool.not_false]
  · left
    rw [Bool.not_eq_true] at h
    simp [pyStrLe, h]

theorem pyStrLe_trans (a b c : String) (h1 : pyStrLe a b = true)
    (h2 : pyStrLe b c = true) : pyStrLe a c = true := by
  simp only [pyStrLe, Bool.not_eq_true'] at h1 h2 ⊢
  by_cases hca : pyLtChars c.data a.data = true
  · exfalso
    by_cases hab : pyLtChars a.data b.data = true
    · have hcb := pyLtChars_trans c.data a.data b.data hca hab
      rw [hcb] at h2
      cases h2
    · have hab' : pyLtChars a.data b.data = false := Bool.eq_false_iff.mpr hab
      have heq : a.data = b.data := pyLtChars_eq_of_not a.data b.data hab' h1
      rw [← heq] at h2
      rw [h2] at hca
      cases hca
  · exact Bool.eq_false_iff.mpr hca

theorem pyStrLe_antisymm (a b : String) (h1 : pyStrLe a b = true)
    (h2 : pyStrLe b a = true) : a = b := by
  simp only [pyStrLe, Bool.not_eq_true'] at h1 h2
  exact String.ext (pyLtChars_eq_of_not a.data b.data h2 h1)

/-- The ordering `sorted(dct.items())` uses under `sort_keys=True`: compare
the keys (unique in a dict, so values are never reached). -/
def pairLe (a b : String × Json) : Prop := pyStrLe a.1 b.1 = true

instance : DecidableRel pairLe := fun a b =>
  inferInstanceAs (Decidable (pyStrLe a.1 b.1 = true))

instance : IsTotal (String × Json) pairLe :=
  ⟨fun a b => pyStrLe_total a.1 b.1⟩

instance : IsTrans (String × Json) pairLe :=
  ⟨fun a b c => pyStrLe_trans a.1 b.1 c.1⟩

mutual

/-- Recursively sort the fields of every object by key, as the encoder's
`sorted(dct.items())` does at each level. -/
def sortJson : Json → Json
  | .obj fields => .obj (List.insertionSort pairLe (sortFields fields))
  | .null => .null
  | .b bo => .b bo
  | .num n => .num n
  | .str s => .str s
  termination_by structural j => j

/-- Sort the values of a field list recursively (keys untouched). -/
def sortFields : List (String × Json) → List (String × Json)
  | [] => []
  | (k, v) :: rest => (k, sortJson v) :: sortFields rest
  termination_by structural l => l

end

/-- Lowercase hexadecimal digit, as Python's `\\uXXXX` escapes use. -/
def hexDigit (n : Nat) : Char :=
  if n < 10 then Char.ofNat (48 + n) else Char.ofNat (87 + n)

/-- Four lowercase hex digits. -/
def hex4 (n : Nat) : String :=
  String.mk [hexDigit ((n / 4096) % 16), hexDigit ((n / 256) % 16),
    hexDigit ((n / 16) % 16), hexDigit (n % 16)]

/-- A `\\uXXXX` escape, using a surrogate pair beyond the basic plane, as
`ensure_ascii` (the `json.dumps` default) renders non-ASCII code points. -/
def uescape (n : Nat) : String :=
  if n < 65536 then "\\u" ++ hex4 n
  else
    "\\u" ++ hex4 (55296 + (n - 65536) / 1024)
      ++ "\\u" ++ hex4 (56320 + (n - 65536) % 1024)

/-- Escape one character the way the `json` encoder's ASCII string encoder
does. -/
def escape_char (c : Char) : String :=
  if c = '"' then "\\\""
  else if c = '\\' then "\\\\"
  else if c = '\n' then "\\n"
  else if c = '\t' then "\\t"
  else if c = '\r' then "\\r"
  else if c.toNat = 8 then "\\b"
  else if c.toNat = 12 then "\\f"
  else if c.toNat < 32 ∨ c.toNat > 126 then uescape c.toNat
  else String.singleton c

/-- A JSON string literal: quoted and escaped. -/
def py_json_str (s : String) : String :=
  "\"" ++ String.join (s.data.map escape_char) ++ "\""

/-- Python `str(n)` for an int. -/
def int_repr (n : Int) : String :=
  match n with
  | .ofNat m => Nat.repr m
  | .negSucc m => "-" ++ Nat.repr (m + 1)

/-- `n` spaces. -/
def nspaces (n : Nat) : String := String.mk (List.replicate n ' ')

mutual

/-- Render an (already key-sorted) JSON value at nesting level `lvl` the way
`json.dumps(..., indent=4, separators=(',', ': '))` does. -/
def jdumps (lvl : Nat) : Json → String
  | .null => "null"
  | .b true => "true"
  | .b false => "false"
  | .num n => int_repr n
  | .str s => py_json_str s
  | .obj [] => "\x7b\x7d"
  | .obj (f :: fs) =>
      "\x7b\n" ++ jdumps_fields lvl (f :: fs) ++ "\n" ++ nspaces (4 * lvl) ++ "\x7d"
  termination_by structural j => j

/-- Render the entries of an object: each on its own line, indented one
level deeper, separated by `,` plus the newline indent, the key rendered as
a JSON string followed by the `': '` key separator. -/
def jdumps_fields (lvl : Nat) : List (String × Json) → String
  | [] => ""
  | [(k, v)] =>
      nspaces (4 * (lvl + 1)) ++ py_json_str k ++ ": " ++ jdumps (lvl + 1) v
  | (k, v) :: rest =>
      nspaces (4 * (lvl + 1)) ++ py_json_str k ++ ": " ++ jdumps (lvl + 1) v
        ++ ",\n" ++ jdumps_fields lvl rest
  termination_by structural l => l

end

/-- `json.dumps(value, indent=4, sort_keys=True, separators=(',', ': '))`. -/
def py_dumps (j : Json) : String := jdumps 0 (sortJson j)

/-- The distribution attribute `write_json_file` reads: absent (`None`), a
dict, or an already-serialized string (`validate_json_field` admits both). -/
inductive AttrVal where
  | absent
  | dict (fields : Obj)
  | rawstr (s : String)

/-- `write_json_file`: serialize a dict attribute with sorted keys and
4-space indentation; pass a string through; `None` deletes the file
(`write_or_delete_file`). -/
def write_json_file : AttrVal → Option String
  | .absent => none
  | .dict fields => some (py_dumps (Json.obj fields))
  | .rawstr s => some s

example :
    py_dumps (Json.obj [("b", .str "x"),
      ("a", Json.obj [("d", .num 1), ("c", Json.null)])])
      = "\x7b\n    \"a\": \x7b\n        \"c\": null,\n        \"d\": 1\n    \x7d,\n    \"b\": \"x\"\n\x7d" := by
  rfl

theorem sortFields_keys (m : Obj) :
    (sortFields m).map Prod.fst = m.map Prod.fst := by
  induction m with
  | nil => rfl
  | cons hd tl ih =>
      obtain ⟨k, v⟩ := hd
      simp only [sortFields, List.map_cons, ih]

theorem dget_sortFields (m : Obj) (k : String) :
    dget (sortFields m) k = (dget m k).map sortJson := by
  induction m with
  | nil => rfl
  | cons hd tl ih =>
      obtain ⟨k0, v0⟩ := hd
      simp only [sortFields, dget]
      by_cases h : k0 = k
      · rw [if_pos h, if_pos h]
        rfl
      · rw [if_neg h, if_neg h, ih]

/-- Two key-sorted, key-unique field lists with the same members are equal. -/
theorem sorted_eq_of_mem_iff (l1 : List (String × Json)) :
    ∀ (l2 : List (String × Json)),
    List.Sorted pairLe l1 → List.Sorted pairLe l2 →
    (l1.map Prod.fst).Nodup → (l2.map Prod.fst).Nodup →
    (∀ kv, kv ∈ l1 ↔ kv ∈ l2) → l1 = l2 := by
  induction l1 with
  | nil =>
      intro l2 _ _ _ _ hmem
      cases l2 with
      | nil => rfl
      | cons b t2 => exact absurd ((hmem b).mpr (List.mem_cons_self b t2)) (by simp)
  | cons a t1 ih =>
      intro l2 s1 s2 n1 n2 hmem
      cases l2 with
      | nil => exact absurd ((hmem a).mp (List.mem_cons_self a t1)) (by simp)
      | cons b t2 =>
          have hab : a ∈ b :: t2 := (hmem a).mp (List.mem_cons_self a t1)
          have hba : b ∈ a :: t1 := (hmem b).mpr (List.mem_cons_self b t2)
          simp only [List.map_cons, List.nodup_cons] at n1 n2
          by_cases heq : a = b
          · subst heq
            have htails : ∀ kv, kv ∈ t1 ↔ kv ∈ t2 := by
              intro kv
              constructor
              · intro hkv
                rcases List.mem_cons.mp ((hmem kv).mp (List.mem_cons_of_mem a hkv))
                  with he | hm
                · exact absurd (he ▸ List.mem_map_of_mem Prod.fst hkv) n1.1
                · exact hm
              · intro hkv
                rcases List.mem_cons.mp ((hmem kv).mpr (List.mem_cons_of_mem a hkv))
                  with he | hm
                · exact absurd (he ▸ List.mem_map_of_mem Prod.fst hkv) n2.1
                · exact hm
            rw [ih t2 s1.of_cons s2.of_cons n1.2 n2.2 htails]
          · exfalso
            have hat2 : a ∈ t2 := by
              rcases List.mem_cons.mp hab with he | hm
              · exact absurd he heq
              · exact hm
            have hbt1 : b ∈ t1 := by
              rcases List.mem_cons.mp hba with he | hm
              · exact absurd he.symm heq
              · exact hm
            have h1 : pairLe a b := List.rel_of_sorted_cons s1 b hbt1
            have h2 : pairLe b a := List.rel_of_sorted_cons s2 a hat2
            have hk : a.1 = b.1 := pyStrLe_antisymm a.1 b.1 h1 h2
            exact n2.1 (hk ▸ List.mem_map_of_mem Prod.fst hat2)

/-- Equal dict mappings (unique keys, identical values under every key)
serialize to the identical byte sequence. -/
theorem py_dumps_congr (m₁ m₂ : Obj)
    (h1 : (m₁.map Prod.fst).Nodup) (h2 : (m₂.map Prod.fst).Nodup)
    (hl : ∀ k, dget m₁ k = dget m₂ k) :
    py_dumps (Json.obj m₁) = py_dumps (Json.obj m₂) := by
  have hperm1 := List.perm_insertionSort pairLe (sortFields m₁)
  have hperm2 := List.perm_insertionSort pairLe (sortFields m₂)
  have hn1 : ((sortFields m₁).map Prod.fst).Nodup := by
    rw [sortFields_keys]; exact h1
  have hn2 : ((sortFields m₂).map Prod.fst).Nodup := by
    rw [sortFields_keys]; exact h2
  have hns1 : ((List.insertionSort pairLe (sortFields m₁)).map Prod.fst).Nodup :=
    ((hperm1.map Prod.fst).nodup_iff).mpr hn1
  have hns2 : ((List.insertionSort pairLe (sortFields m₂)).map Prod.fst).Nodup :=
    ((hperm2.map Prod.fst).nodup_iff).mpr hn2
  have hsorted : List.insertionSort pairLe (sortFields m₁)
      = List.insertionSort pairLe (sortFields m₂) := by
    refine sorted_eq_of_mem_iff _ _
      (List.sorted_insertionSort pairLe (sortFields m₁))
      (List.sorted_insertionSort pairLe (sortFields m₂)) hns1 hns2 ?_
    intro kv
    obtain ⟨k, v⟩ := kv
    rw [hperm1.mem_iff, hperm2.mem_iff,
      ← dget_eq_some_iff_mem (sortFields m₁) hn1 k v,
      ← dget_eq_some_iff_mem (sortFields m₂) hn2 k v,
      dget_sortFields, dget_sortFields, hl k]
  show jdumps 0 (sortJson (Json.obj m₁)) = jdumps 0 (sortJson (Json.obj m₂))
  rw [show sortJson (Json.obj m₁)
      = Json.obj (List.insertionSort pairLe (sortFields m₁)) from rfl,
    show sortJson (Json.obj m₂)
      = Json.obj (List.insertionSort pairLe (sortFields m₂)) from rfl,
    hsorted]

/-- C8: the dict value persisted by the `--init` JSON-writing path is
rendered as a JSON object with sorted key order and 4-space indentation
(shown literally on a nested example), so that two runs over equal input
mappings produce byte-identical output. -/
theorem write_json_sorted_canonical :
    (∀ m₁ m₂ : Obj, (m₁.map Prod.fst).Nodup → (m₂.map Prod.fst).Nodup →
      (∀ k, dget m₁ k = dget m₂ k) →
      write_json_file (.dict m₁) = write_json_file (.dict m₂))
    ∧ py_dumps (Json.obj [("b", .str "x"),
        ("a", Json.obj [("d", .num 1), ("c", Json.null)])])
      = "\x7b\n    \"a\": \x7b\n        \"c\": null,\n        \"d\": 1\n    \x7d,\n    \"b\": \"x\"\n\x7d" := by
  constructor
  · intro m₁ m₂ h1 h2 hl
    show some (py_dumps (Json.obj m₁)) = some (py_dumps (Json.obj m₂))
    rw [py_dumps_congr m₁ m₂ h1 h2 hl]
  · rfl

/-- Witness for C8: two insertion orders of the same mapping produce the
same bytes. -/
theorem write_json_sorted_canonical_witness :
    write_json_file (.dict [("b", Json.str "x"), ("a", Json.str "y")])
      = write_json_file (.dict [("a", Json.str "y"), ("b", Json.str "x")]) := by
  refine write_json_sorted_canonical.1 _ _ (by decide) (by decide) ?_
  intro k
  by_cases hb : "b" = k
  · subst hb; rfl
  · by_cases ha : "a" = k
    · subst ha; rfl
    · simp only [dget, if_neg hb, if_neg ha]

/-! ### Models of the runtime dispatcher (`calmjs/runtime.py` is not among
the sources; these components are modelled from the spec and checked against
the behaviour `calmjs/tests/test_runtime.py` pins down). -/

/-- Modelled from the spec: the repeatable global verbosity flags of the
missing `calmjs.runtime` module — `-v` increments and `-q` decrements one
cumulative counter; other argv tokens leave it alone. -/
inductive GlobalFlag where
  | verbose
  | quiet
  | other
deriving DecidableEq

/-- Modelled from the spec: the missing runtime accumulates the verbosity
counter over the whole argv, then clamps it so the derived log threshold
saturates at both ends. -/
def verbosity_raw (argv : List GlobalFlag) : Int :=
  argv.foldl
    (fun acc f =>
      match f with
      | .verbose => acc + 1
      | .quiet => acc - 1
      | .other => acc)
    0

/-- Modelled from the spec: the saturation bounds of the verbosity counter
(two steps above and below the default threshold). -/
def verbosity_of (argv : List GlobalFlag) : Int :=
  max (-2) (min 2 (verbosity_raw argv))

/-- Modelled from the spec: the log threshold each verbosity selects —
WARNING by default, INFO and DEBUG above, ERROR and CRITICAL below. -/
def log_level_of : Int → LogLevel
  | 1 => .info
  | 2 => .debug
  | -1 => .error
  | -2 => .critical
  | _ => .warning

theorem verbosity_raw_foldl (argv : List GlobalFlag) (acc : Int) :
    argv.foldl
        (fun a f =>
          match f with
          | GlobalFlag.verbose => a + 1
          | GlobalFlag.quiet => a - 1
          | GlobalFlag.other => a)
        acc
      = acc + ((argv.count GlobalFlag.verbose : Int)
          - (argv.count GlobalFlag.quiet : Int)) := by
  induction argv generalizing acc with
  | nil => simp
  | cons hd tl ih =>
      simp only [List.foldl_cons, List.count_cons]
      cases hd with
      | verbose =>
          rw [ih]
          simp
          try omega
      | quiet =>
          rw [ih]
          simp
          try omega
      | other =>
          rw [ih]
          simp
          try omega

theorem verbosity_count (argv : List GlobalFlag) :
    verbosity_raw argv
      = (argv.count GlobalFlag.verbose : Int) - (argv.count GlobalFlag.quiet : Int) := by
  show argv.foldl _ 0 = _
  rw [verbosity_raw_foldl]
  omega

/-- C6: each `-v` increments and each `-q` decrements the verbosity counter,
wherever they appear, so inverse pairs net-cancel — equal numbers of `-v`
and `-q` yield the default WARNING threshold, one surplus `-v` (e.g.
`-vvv -qq`) yields verbosity 1 and INFO, and any surplus of two or more in
either direction saturates at DEBUG respectively CRITICAL. -/
theorem verbosity_flags_cancel_and_saturate :
    (∀ argv : List GlobalFlag,
      argv.count GlobalFlag.verbose = argv.count GlobalFlag.quiet →
      verbosity_of argv = 0 ∧ log_level_of (verbosity_of argv) = .warning)
    ∧ (∀ argv : List GlobalFlag,
      argv.count GlobalFlag.verbose = argv.count GlobalFlag.quiet + 1 →
      verbosity_of argv = 1 ∧ log_level_of (verbosity_of argv) = .info)
    ∧ (∀ argv : List GlobalFlag,
      argv.count GlobalFlag.quiet + 2 ≤ argv.count GlobalFlag.verbose →
      verbosity_of argv = 2 ∧ log_level_of (verbosity_of argv) = .debug)
    ∧ (∀ argv : List GlobalFlag,
      argv.count GlobalFlag.verbose + 2 ≤ argv.count GlobalFlag.quiet →
      verbosity_of argv = -2 ∧ log_level_of (verbosity_of argv) = .critical) := by
  refine ⟨?_, ?_, ?_, ?_⟩
  · intro argv h
    have hv := verbosity_count argv
    have hval : verbosity_of argv = 0 := by
      show max (-2) (min 2 (verbosity_raw argv)) = 0
      rw [hv]; omega
    rw [hval]
    exact ⟨rfl, rfl⟩
  · intro argv h
    have hv := verbosity_count argv
    have hval : verbosity_of argv = 1 := by
      show max (-2) (min 2 (verbosity_raw argv)) = 1
      rw [hv]; omega
    rw [hval]
    exact ⟨rfl, rfl⟩
  · intro argv h
    have hv := verbosity_count argv
    have hval : verbosity_of argv = 2 := by
      show max (-2) (min 2 (verbosity_raw argv)) = 2
      rw [hv]; omega
    rw [hval]
    exact ⟨rfl, rfl⟩
  · intro argv h
    have hv := verbosity_count argv
    have hval : verbosity_of argv = -2 := by
      show max (-2) (min 2 (verbosity_raw argv)) = -2
      rw [hv]; omega
    rw [hval]
    exact ⟨rfl, rfl⟩

/-- Witness for C6: `-v -q` cancels to WARNING and `-vvv -qq` gives
verbosity 1 and INFO. -/
theorem verbosity_flags_cancel_and_saturate_witness :
    (verbosity_of [GlobalFlag.verbose, GlobalFlag.quiet] = 0
      ∧ log_level_of (verbosity_of [GlobalFlag.verbose, GlobalFlag.quiet])
        = .warning)
    ∧ (verbosity_of [GlobalFlag.verbose, GlobalFlag.verbose, GlobalFlag.verbose,
        GlobalFlag.quiet, GlobalFlag.quiet] = 1
      ∧ log_level_of (verbosity_of [GlobalFlag.verbose, GlobalFlag.verbose,
        GlobalFlag.verbose, GlobalFlag.quiet, GlobalFlag.quiet]) = .info) :=
  ⟨verbosity_flags_cancel_and_saturate.1 _ (by decide),
   verbosity_flags_cancel_and_saturate.2.1 _ (by decide)⟩

/-- Modelled from the spec: the outcome of the export-target confirmation
hook of the missing `calmjs.runtime.ToolchainRuntime` — proceed, an
expected Abort with a message, or a user/auto Cancel. -/
inductive CheckOutcome where
  | proceed
  | abort (msg : String)
  | cancel
deriving DecidableEq

/-- Modelled from the spec: the inputs the missing confirmation hook
consults — whether an export target is configured and exists on disk, the
overwrite flag, whether the run is interactive, and the reply a prompt
would read. -/
structure CheckEnv where
  export_target : Option String
  target_exists : Bool
  overwrite : Bool
  interactive : Bool
  reply_yes : Bool

/-- Modelled from the spec: the export-target confirmation protocol of the
missing `calmjs.runtime.ToolchainRuntime.prompt_export_target_check` — no
configured target aborts; an absent target proceeds silently; an existing
target proceeds when the overwrite flag is set, otherwise asks the user
when interactive and auto-selects the default No (logging that fact) when
not.  The third component records whether standard input was read. -/
def prompt_export_target_check (env : CheckEnv) :
    CheckOutcome × List String × Bool :=
  match env.export_target with
  | none => (.abort "EXPORT_TARGET should be specified by this stage", [], false)
  | some _ =>
      if !env.target_exists then (.proceed, [], false)
      else if env.overwrite then (.proceed, [], false)
      else if env.interactive then
        (if env.reply_yes then .proceed else .cancel, [], true)
      else
        (.cancel,
          ["non-interactive mode; auto-selecting default option [No]"], false)

/-- C5: the confirmation check aborts when no export target is configured,
proceeds without prompting when the configured target does not exist, and
in a non-interactive run over an existing target without the overwrite
flag cancels after logging the auto-selected default, never reading
standard input. -/
theorem prompt_export_target_protocol :
    (∀ env : CheckEnv, env.export_target = none →
      prompt_export_target_check env
        = (.abort "EXPORT_TARGET should be specified by this stage", [], false))
    ∧ (∀ (env : CheckEnv) (t : String), env.export_target = some t →
      env.target_exists = false →
      prompt_export_target_check env = (.proceed, [], false))
    ∧ (∀ (env : CheckEnv) (t : String), env.export_target = some t →
      env.target_exists = true → env.overwrite = false →
      env.interactive = false →
      (prompt_export_target_check env).1 = .cancel
      ∧ "non-interactive mode; auto-selecting default option [No]"
          ∈ (prompt_export_target_check env).2.1
      ∧ (prompt_export_target_check env).2.2 = false) := by
  refine ⟨?_, ?_, ?_⟩
  · intro env h
    simp [prompt_export_target_check, h]
  · intro env t h1 h2
    simp [prompt_export_target_check, h1, h2]
  · intro env t h1 h2 h3 h4
    simp [prompt_export_target_check, h1, h2, h3, h4]

/-- Witness for C5: the three scenarios at concrete inputs. -/
theorem prompt_export_target_protocol_witness :
    (prompt_export_target_check ⟨none, false, false, true, true⟩
      = (.abort "EXPORT_TARGET should be specified by this stage", [], false))
    ∧ (prompt_export_target_check ⟨some "export_file", false, false, true, true⟩
      = (.proceed, [], false))
    ∧ ((prompt_export_target_check ⟨some "export_file", true, false, false, true⟩).1
        = .cancel
      ∧ "non-interactive mode; auto-selecting default option [No]"
          ∈ (prompt_export_target_check
            ⟨some "export_file", true, false, false, true⟩).2.1
      ∧ (prompt_export_target_check
          ⟨some "export_file", true, false, false, true⟩).2.2 = false) :=
  ⟨prompt_export_target_protocol.1 _ rfl,
   prompt_export_target_protocol.2.1 _ "export_file" rfl rfl,
   prompt_export_target_protocol.2.2 _ "export_file" rfl rfl rfl rfl⟩

/-- Modelled from the spec: the lifecycle state of the missing
`calmjs.runtime.Runtime` dispatcher — whether it has been initialized, and
the identity of the argument parser it owns (if any). -/
structure Dispatcher where
  initialized : Bool
  parser_id : Option Nat

/-- Modelled from the spec: the runtime error message the missing module
raises on misuse of the dispatcher lifecycle. -/
def RUNTIME_MISUSE_MSG : String :=
  "Runtime instance has been used or initialized improperly."

/-- Modelled from the spec: attaching the dispatcher's argument parser —
only the parser the dispatcher itself owns is accepted; a foreign parser is
a programming error and raises. -/
def init_argparser (d : Dispatcher) (parser : Nat) : Except String Dispatcher :=
  match d.parser_id with
  | none => .ok ⟨true, some parser⟩
  | some own =>
      if parser = own then .ok d
      else .error RUNTIME_MISUSE_MSG

/-- Modelled from the spec: `dispatch` initializes the dispatcher on first
use; calling it a second time on an already-initialized dispatcher is a
programming error and raises rather than half-initializing. -/
def dispatch_init (d : Dispatcher) (freshArgp : Nat) :
    Except String Dispatcher :=
  if d.initialized then .error RUNTIME_MISUSE_MSG
  else .ok ⟨true, some freshArgp⟩

/-- C9: a second `dispatch` on an already-initialized dispatcher raises the
fatal runtime misuse error (no state is produced at all, so nothing can be
half-initialized), and `init_argparser` with a foreign parser likewise
raises. -/
theorem dispatcher_misuse_raises :
    (∀ (d : Dispatcher) (p : Nat), d.initialized = true →
      dispatch_init d p = .error RUNTIME_MISUSE_MSG)
    ∧ (∀ (d : Dispatcher) (p own : Nat), d.parser_id = some own → p ≠ own →
      init_argparser d p = .error RUNTIME_MISUSE_MSG)
    ∧ (∀ p : Nat, ∃ d : Dispatcher,
      dispatch_init ⟨false, none⟩ p = .ok d
      ∧ ∀ q : Nat, dispatch_init d q = .error RUNTIME_MISUSE_MSG) := by
  refine ⟨?_, ?_, ?_⟩
  · intro d p h
    simp [dispatch_init, h]
  · intro d p own h1 h2
    simp [init_argparser, h1, h2]
  · intro p
    exact ⟨⟨true, some p⟩, rfl, fun q => rfl⟩

/-- Witness for C9: misuse at concrete states raises. -/
theorem dispatcher_misuse_raises_witness :
    (dispatch_init ⟨true, some 0⟩ 1 = .error RUNTIME_MISUSE_MSG)
    ∧ (init_argparser ⟨true, some 0⟩ 1 = .error RUNTIME_MISUSE_MSG) :=
  ⟨dispatcher_misuse_raises.1 ⟨true, some 0⟩ 1 rfl,
   dispatcher_misuse_raises.2.1 ⟨true, some 0⟩ 1 0 rfl (by decide)⟩

/-- Modelled from the spec: the two-level parser configuration of the
missing `calmjs.runtime.Runtime` — the program name, the registered command
names, the global flags the bootstrap parser knows, and the flags each
subcommand's own parser knows. -/
structure ParserEnv where
  prog : String
  commands : List String
  global_flags : List String
  cmd_flags : String → List String

/-- A flag token: starts with `-`. -/
def is_flagtok (t : String) : Bool :=
  match t.data with
  | [] => false
  | c :: _ => c = '-'

/-- Modelled from the spec: the outcome of one dispatch — a selected
command, no command given, an unknown command, or a usage error carrying
the scope it is attributed to (the program name alone for the bootstrap
parser, program name plus subcommand for a subcommand parser) and the
unrecognized tokens. -/
inductive DispatchResult where
  | ok (cmd : String) (args : List String)
  | no_command
  | bad_command (cmd : String)
  | err (scope : String) (unrecognized : List String)
deriving DecidableEq

/-- Modelled from the spec: the two-phase dispatch of the missing
`calmjs.runtime.Runtime.__call__` — flags before the first positional are
resolved against the bootstrap parser and an unrecognized one short-circuits
into a bootstrap error; the first positional selects the command, whose own
parser (together with the global flags, accepted in either position)
resolves the remainder, attributing unrecognized flags there to the
subcommand. -/
def dispatch_argv (env : ParserEnv) (argv : List String) : DispatchResult :=
  let pre := argv.takeWhile is_flagtok
  let rest := argv.dropWhile is_flagtok
  let unknown_before := pre.filter (fun t => !env.global_flags.contains t)
  if unknown_before.isEmpty then
    match rest with
    | [] => .no_command
    | cmd :: after =>
        if env.commands.contains cmd then
          let unknown_after := (after.filter is_flagtok).filter
            (fun t => !env.global_flags.contains t
              && !(env.cmd_flags cmd).contains t)
          if unknown_after.isEmpty then .ok cmd after
          else .err (env.prog ++ " " ++ cmd) unknown_after
        else .bad_command cmd
  else .err env.prog unknown_before

/-- The error line argparse prints for a dispatch error. -/
def render_err (r : DispatchResult) : Option String :=
  match r with
  | .err scope unrecognized =>
      some (scope ++ ": error: unrecognized arguments: "
        ++ String.intercalate " " unrecognized)
  | _ => none

theorem takeWhile_append_all {α : Type} (p : α → Bool) (xs ys : List α)
    (h : ∀ x ∈ xs, p x = true) :
    (xs ++ ys).takeWhile p = xs ++ ys.takeWhile p := by
  induction xs with
  | nil => rfl
  | cons a l ih =>
      simp only [List.cons_append, List.takeWhile_cons,
        h a (List.mem_cons_self a l), if_true, List.cons.injEq, true_and]
      exact ih (fun x hx => h x (List.mem_cons_of_mem a hx))

theorem dropWhile_append_all {α : Type} (p : α → Bool) (xs ys : List α)
    (h : ∀ x ∈ xs, p x = true) :
    (xs ++ ys).dropWhile p = ys.dropWhile p := by
  induction xs with
  | nil => rfl
  | cons a l ih =>
      simp only [List.cons_append, List.dropWhile_cons,
        h a (List.mem_cons_self a l), if_true]
      exact ih (fun x hx => h x (List.mem_cons_of_mem a hx))

theorem filter_known_nil (xs : List String) (p : String → Bool)
    (h : ∀ t ∈ xs, p t = false) : xs.filter p = [] := by
  induction xs with
  | nil => rfl
  | cons a l ih =>
      rw [List.filter_cons_of_neg (by simp [h a (List.mem_cons_self a l)])]
      exact ih (fun t ht => h t (List.mem_cons_of_mem a ht))

/-- The runtime environment the argument-handling tests set up: program
`calmjs`, one registered command `cmd`, the global flags, and the
package-manager subcommand's own flags. -/
def calmjs_env : ParserEnv :=
  ⟨"calmjs", ["cmd"], ["-v", "-q", "-d", "-h", "-V"],
    fun _ => ["-i", "-m", "-E", "--init", "--view", "--install", "--debugger"]⟩

/-- C3: an unrecognized flag before the command name yields an error
attributed to the top-level program alone — regardless of what follows, so
when it also appears after the command only the bootstrap error is reported
— while an unrecognized flag after the command name yields an error
attributed to the program plus the subcommand; the concrete argv of the
argument-handling tests render exactly the expected error lines. -/
theorem parse_error_attribution :
    (∀ (env : ParserEnv) (fl1 fl2 : List String) (u cmd : String)
        (after : List String),
      (∀ t ∈ fl1, is_flagtok t = true ∧ env.global_flags.contains t = true) →
      (∀ t ∈ fl2, is_flagtok t = true ∧ env.global_flags.contains t = true) →
      is_flagtok u = true → env.global_flags.contains u = false →
      is_flagtok cmd = false →
      dispatch_argv env (fl1 ++ [u] ++ fl2 ++ cmd :: after) = .err env.prog [u])
    ∧ (∀ (env : ParserEnv) (fl : List String) (cmd u : String)
        (a1 a2 : List String),
      (∀ t ∈ fl, is_flagtok t = true ∧ env.global_flags.contains t = true) →
      is_flagtok cmd = false → env.commands.contains cmd = true →
      (∀ t ∈ a1, is_flagtok t = true →
        (env.global_flags.contains t || (env.cmd_flags cmd).contains t) = true) →
      (∀ t ∈ a2, is_flagtok t = true →
        (env.global_flags.contains t || (env.cmd_flags cmd).contains t) = true) →
      is_flagtok u = true → env.global_flags.contains u = false →
      (env.cmd_flags cmd).contains u = false →
      dispatch_argv env (fl ++ cmd :: (a1 ++ [u] ++ a2))
        = .err (env.prog ++ " " ++ cmd) [u])
    ∧ (∀ (env : ParserEnv) (fl1 fl2 : List String) (u cmd : String)
        (a1 a2 : List String),
      (∀ t ∈ fl1, is_flagtok t = true ∧ env.global_flags.contains t = true) →
      (∀ t ∈ fl2, is_flagtok t = true ∧ env.global_flags.contains t = true) →
      is_flagtok u = true → env.global_flags.contains u = false →
      is_flagtok cmd = false →
      dispatch_argv env (fl1 ++ [u] ++ fl2 ++ cmd :: (a1 ++ [u] ++ a2))
        = .err env.prog [u])
    ∧ (render_err (dispatch_argv calmjs_env ["-u", "cmd", "pkg"])
        = some "calmjs: error: unrecognized arguments: -u"
      ∧ render_err (dispatch_argv calmjs_env ["cmd", "pkg", "-u"])
        = some "calmjs cmd: error: unrecognized arguments: -u"
      ∧ render_err (dispatch_argv calmjs_env ["-u", "cmd", "pkg", "-u"])
        = some "calmjs: error: unrecognized arguments: -u"
      ∧ render_err (dispatch_argv calmjs_env ["-v", "cmd", "pkg", "-u"])
        = some "calmjs cmd: error: unrecognized arguments: -u"
      ∧ render_err (dispatch_argv calmjs_env ["-i", "cmd", "pkg", "-i"])
        = some "calmjs: error: unrecognized arguments: -i") := by
  have hA : ∀ (env : ParserEnv) (fl1 fl2 : List String) (u cmd : String)
      (after : List String),
      (∀ t ∈ fl1, is_flagtok t = true ∧ env.global_flags.contains t = true) →
      (∀ t ∈ fl2, is_flagtok t = true ∧ env.global_flags.contains t = true) →
      is_flagtok u = true → env.global_flags.contains u = false →
      is_flagtok cmd = false →
      dispatch_argv env (fl1 ++ [u] ++ fl2 ++ cmd :: after)
        = .err env.prog [u] := by
    intro env fl1 fl2 u cmd after h1 h2 hu hugl hcmd
    have hflags : ∀ t ∈ fl1 ++ [u] ++ fl2, is_flagtok t = true := by
      intro t ht
      rcases List.mem_append.mp ht with ht' | ht2
      · rcases List.mem_append.mp ht' with ht1 | htu
        · exact (h1 t ht1).1
        · rw [List.mem_singleton.mp htu]; exact hu
      · exact (h2 t ht2).1
    have hassoc : fl1 ++ [u] ++ fl2 ++ cmd :: after
        = (fl1 ++ [u] ++ fl2) ++ (cmd :: after) := by
      simp [List.append_assoc]
    have hpre : ((fl1 ++ [u] ++ fl2) ++ (cmd :: after)).takeWhile is_flagtok
        = fl1 ++ [u] ++ fl2 := by
      rw [takeWhile_append_all _ _ _ hflags]
      simp [List.takeWhile_cons, hcmd]
    have hunk : (fl1 ++ [u] ++ fl2).filter
        (fun t => !env.global_flags.contains t) = [u] := by
      simp only [List.filter_append]
      rw [filter_known_nil fl1 _ (fun t ht => by rw [(h1 t ht).2]; rfl),
        filter_known_nil fl2 _ (fun t ht => by rw [(h2 t ht).2]; rfl),
        List.filter_cons_of_pos (by rw [hugl]; rfl), List.filter_nil]
      simp
    rw [hassoc]
    simp only [dispatch_argv]
    rw [hpre, hunk]
    rfl
  refine ⟨hA, ?_, ?_, by rfl, by rfl, by rfl, by rfl, by rfl⟩
  · intro env fl cmd u a1 a2 hfl hcmd hcmds ha1 ha2 hu hugl hucmd
    have hflags : ∀ t ∈ fl, is_flagtok t = true := fun t ht => (hfl t ht).1
    have hpre : (fl ++ cmd :: (a1 ++ [u] ++ a2)).takeWhile is_flagtok = fl := by
      rw [takeWhile_append_all _ _ _ hflags]
      simp [List.takeWhile_cons, hcmd]
    have hdrop : (fl ++ cmd :: (a1 ++ [u] ++ a2)).dropWhile is_flagtok
        = cmd :: (a1 ++ [u] ++ a2) := by
      rw [dropWhile_append_all _ _ _ hflags]
      simp [List.dropWhile_cons, hcmd]
    have hunk : fl.filter (fun t => !env.global_flags.contains t) = [] :=
      filter_known_nil fl _ (fun t ht => by rw [(hfl t ht).2]; rfl)
    have hflt : (a1 ++ [u] ++ a2).filter is_flagtok
        = a1.filter is_flagtok ++ [u] ++ a2.filter is_flagtok := by
      simp [List.filter_append, hu]
    have hka : ∀ (a : List String),
        (∀ t ∈ a, is_flagtok t = true →
          (env.global_flags.contains t || (env.cmd_flags cmd).contains t)
            = true) →
        (a.filter is_flagtok).filter
          (fun t => !env.global_flags.contains t
            && !(env.cmd_flags cmd).contains t) = [] := by
      intro a ha
      refine filter_known_nil _ _ (fun t ht => ?_)
      have hmem := List.mem_filter.mp ht
      have hk := ha t hmem.1 hmem.2
      rcases Bool.or_eq_true_iff.mp hk with hg | hc
      · rw [hg]
        rfl
      · rw [hc]
        simp
    have hunka : ((a1 ++ [u] ++ a2).filter is_flagtok).filter
        (fun t => !env.global_flags.contains t
          && !(env.cmd_flags cmd).contains t) = [u] := by
      rw [hflt]
      simp only [List.filter_append]
      rw [hka a1 ha1, hka a2 ha2,
        List.filter_cons_of_pos (by rw [hugl, hucmd]; rfl), List.filter_nil]
      simp
    simp only [dispatch_argv]
    rw [hpre, hdrop, hunk]
    simp only [List.isEmpty_nil, if_true]
    rw [hcmds, if_pos rfl, hunka]
    rfl
  · intro env fl1 fl2 u cmd a1 a2 h1 h2 hu hugl hcmd
    exact hA env fl1 fl2 u cmd (a1 ++ [u] ++ a2) h1 h2 hu hugl hcmd

/-- Witness for C3: the general attribution statements applied to the
test argv, every hypothesis discharged concretely. -/
theorem parse_error_attribution_witness :
    (dispatch_argv calmjs_env ([] ++ ["-u"] ++ [] ++ "cmd" :: ["pkg"])
      = .err calmjs_env.prog ["-u"])
    ∧ (dispatch_argv calmjs_env ([] ++ "cmd" :: (["pkg"] ++ ["-u"] ++ []))
      = .err (calmjs_env.prog ++ " " ++ "cmd") ["-u"])
    ∧ (dispatch_argv calmjs_env
        ([] ++ ["-u"] ++ [] ++ "cmd" :: (["pkg"] ++ ["-u"] ++ []))
      = .err calmjs_env.prog ["-u"]) := by
  refine ⟨?_, ?_, ?_⟩
  · exact parse_error_attribution.1 calmjs_env [] [] "-u" "cmd" ["pkg"]
      (by intro t ht; cases ht) (by intro t ht; cases ht)
      (by decide) (by decide) (by decide)
  · exact parse_error_attribution.2.1 calmjs_env [] "cmd" "-u" ["pkg"] []
      (by intro t ht; cases ht) (by decide) (by decide)
      (by intro t ht hf; rcases List.mem_singleton.mp ht with rfl; cases hf)
      (by intro t ht; cases ht) (by decide) (by decide) (by decide)
  · exact parse_error_attribution.2.2.1 calmjs_env [] [] "-u" "cmd" ["pkg"] []
      (by intro t ht; cases ht) (by intro t ht; cases ht)
      (by decide) (by decide) (by decide)

/-- Modelled from the spec: one manifest entry of the missing command
registry build (`calmjs.runtime.Runtime` resolving its entry points): the
advertised public name, the fully qualified source (`module:attr`, which
doubles as the fallback name), and the loaded implementation — `none` when
loading or instantiation failed. -/
structure CmdEntry where
  name : String
  source : String
  impl : Option Nat

/-- A registered command slot: the implementation kept there and the
manifest source that provided it. -/
structure RegEntry where
  source : String
  impl : Nat
deriving DecidableEq

/-- Modelled from the spec: a valid public name contains neither reserved
separator (`.` or `:`); names with one are reserved for fallback names. -/
def valid_cmd_name (n : String) : Bool :=
  !(n.data.contains '.') && !(n.data.contains ':')

/-- Modelled from the spec: register an implementation under its fully
qualified fallback name, unless that very name is already taken — then the
second one is diagnosed at error severity (distinguishable from ordinary
collisions) and discarded. -/
def reg_fallback (st : Dict RegEntry × List LogEntry) (src : String)
    (impl : Nat) : Dict RegEntry × List LogEntry :=
  match dget st.1 src with
  | none => (dset st.1 src ⟨src, impl⟩, st.2)
  | some _ =>
      (st.1, st.2 ++ [(.error,
        "fallback command '" ++ src ++ "' is already registered.")])

/-- Modelled from the spec: one step of the missing registry build — a
load failure or a malformed public name is diagnosed and skipped; a fresh
valid name is registered; a collision keeps the first registration in the
primary slot, logs a warning naming the kept and the discarded source, and
additionally registers winner and loser under their fallback names. -/
def reg_step (st : Dict RegEntry × List LogEntry) (e : CmdEntry) :
    Dict RegEntry × List LogEntry :=
  match e.impl with
  | none =>
      (st.1, st.2 ++ [(.error,
        "unable to load entry point '" ++ e.name ++ "'")])
  | some impl =>
      if valid_cmd_name e.name then
        match dget st.1 e.name with
        | none => (dset st.1 e.name ⟨e.source, impl⟩, st.2)
        | some prior =>
            reg_fallback
              (reg_fallback
                (st.1, st.2 ++ [(.warning,
                  "a calmjs runtime command named '" ++ e.name
                    ++ "' already registered; keeping '" ++ prior.source
                    ++ "', ignoring '" ++ e.source ++ "'")])
                prior.source prior.impl)
              e.source impl
      else
        (st.1, st.2 ++ [(.error,
          "bad 'calmjs.runtime' entry point '" ++ e.name ++ "'")])

/-- Modelled from the spec: the missing registry build processes the whole
manifest in order, starting from an empty table. -/
def build_registry (manifest : List CmdEntry) : Dict RegEntry × List LogEntry :=
  manifest.foldl reg_step ([], [])

theorem reg_fallback_persist (st : Dict RegEntry × List LogEntry)
    (src : String) (impl : Nat) (k : String) (v : RegEntry)
    (h : dget st.1 k = some v) :
    dget (reg_fallback st src impl).1 k = some v := by
  simp only [reg_fallback]
  cases hs : dget st.1 src with
  | none =>
      dsimp only []
      rw [dget_dset]
      by_cases hk : src = k
      · rw [← hk] at h
        rw [h] at hs
        cases hs
      · rw [if_neg hk]
        exact h
  | some w => exact h

theorem reg_step_persist (st : Dict RegEntry × List LogEntry) (e : CmdEntry)
    (k : String) (v : RegEntry) (h : dget st.1 k = some v) :
    dget (reg_step st e).1 k = some v := by
  simp only [reg_step]
  cases e.impl with
  | none => exact h
  | some impl =>
      dsimp only []
      cases hv : valid_cmd_name e.name with
      | false =>
          rw [if_neg Bool.false_ne_true]
          exact h
      | true =>
          rw [if_pos rfl]
          cases hn : dget st.1 e.name with
          | none =>
              dsimp only []
              rw [dget_dset]
              by_cases hk : e.name = k
              · rw [← hk] at h
                rw [h] at hn
                cases hn
              · rw [if_neg hk]
                exact h
          | some prior =>
              dsimp only []
              exact reg_fallback_persist _ _ _ _ _
                (reg_fallback_persist _ _ _ _ _ h)

theorem build_persist (l : List CmdEntry) (st : Dict RegEntry × List LogEntry)
    (k : String) (v : RegEntry) (h : dget st.1 k = some v) :
    dget ((l.foldl reg_step st).1) k = some v := by
  induction l generalizing st with
  | nil => exact h
  | cons e rest ih => exact ih _ (reg_step_persist st e k v h)

theorem reg_step_logs_mono (st : Dict RegEntry × List LogEntry) (e : CmdEntry)
    (x : LogEntry) (h : x ∈ st.2) : x ∈ (reg_step st e).2 := by
  have hfb : ∀ (st' : Dict RegEntry × List LogEntry) (src : String) (impl : Nat),
      x ∈ st'.2 → x ∈ (reg_fallback st' src impl).2 := by
    intro st' src impl hx
    simp only [reg_fallback]
    cases dget st'.1 src with
    | none => exact hx
    | some w => exact List.mem_append_left _ hx
  simp only [reg_step]
  cases e.impl with
  | none => exact List.mem_append_left _ h
  | some impl =>
      dsimp only []
      cases hv : valid_cmd_name e.name with
      | false =>
          rw [if_neg Bool.false_ne_true]
          exact List.mem_append_left _ h
      | true =>
          rw [if_pos rfl]
          cases dget st.1 e.name with
          | none => exact h
          | some prior =>
              exact hfb _ _ _ (hfb _ _ _ (List.mem_append_left _ h))

theorem build_logs_mono (l : List CmdEntry) (st : Dict RegEntry × List LogEntry)
    (x : LogEntry) (h : x ∈ st.2) : x ∈ ((l.foldl reg_step st).2) := by
  induction l generalizing st with
  | nil => exact h
  | cons e rest ih => exact ih _ (reg_step_logs_mono st e x h)

theorem reg_fallback_fst_congr (st st' : Dict RegEntry × List LogEntry)
    (h : st.1 = st'.1) (src : String) (impl : Nat) :
    (reg_fallback st src impl).1 = (reg_fallback st' src impl).1 := by
  simp only [reg_fallback, h]
  cases dget st'.1 src <;> rfl

theorem reg_fallback2_dget (tbl : Dict RegEntry) (L : List LogEntry)
    (s1 : String) (i1 : Nat) (s2 : String) (i2 : Nat) (k : String) :
    dget (reg_fallback (reg_fallback (tbl, L) s1 i1) s2 i2).1 k
      = dget (reg_fallback (reg_fallback (tbl, ([] : List LogEntry)) s1 i1)
          s2 i2).1 k := by
  rw [reg_fallback_fst_congr (reg_fallback (tbl, L) s1 i1)
    (reg_fallback (tbl, ([] : List LogEntry)) s1 i1)
    (reg_fallback_fst_congr (tbl, L) (tbl, ([] : List LogEntry)) rfl s1 i1)
    s2 i2]

theorem reg_fallback_lookup (st : Dict RegEntry × List LogEntry)
    (src : String) (impl : Nat) (k : String) :
    dget (reg_fallback st src impl).1 k = dget st.1 k
    ∨ (k = src ∧ dget (reg_fallback st src impl).1 k = some ⟨src, impl⟩) := by
  simp only [reg_fallback]
  cases hs : dget st.1 src with
  | none =>
      dsimp only []
      by_cases hk : src = k
      · subst hk
        right
        exact ⟨rfl, by rw [dget_dset, if_pos rfl]⟩
      · left
        rw [dget_dset, if_neg hk]
  | some w => exact Or.inl rfl

theorem reg_fallback_other (st : Dict RegEntry × List LogEntry)
    (src : String) (impl : Nat) (k : String) (h : src ≠ k) :
    dget (reg_fallback st src impl).1 k = dget st.1 k := by
  rcases reg_fallback_lookup st src impl k with heq | ⟨hk, _⟩
  · exact heq
  · exact absurd hk.symm h

theorem reg_step_source_pred (P : String → Prop)
    (st : Dict RegEntry × List LogEntry) (e : CmdEntry)
    (hst : ∀ k v, dget st.1 k = some v → P v.source) (hsrc : P e.source) :
    ∀ k v, dget (reg_step st e).1 k = some v → P v.source := by
  intro k v h
  simp only [reg_step] at h
  cases himpl : e.impl with
  | none =>
      rw [himpl] at h
      exact hst k v h
  | some impl =>
      rw [himpl] at h
      dsimp only [] at h
      cases hv : valid_cmd_name e.name with
      | false =>
          rw [hv, if_neg Bool.false_ne_true] at h
          exact hst k v h
      | true =>
          rw [hv, if_pos rfl] at h
          cases hn : dget st.1 e.name with
          | none =>
              rw [hn] at h
              dsimp only [] at h
              rw [dget_dset] at h
              by_cases hk : e.name = k
              · rw [if_pos hk] at h
                cases h
                exact hsrc
              · rw [if_neg hk] at h
                exact hst k v h
          | some prior =>
              rw [hn] at h
              dsimp only [] at h
              have hprior : P prior.source := hst e.name prior hn
              rcases reg_fallback_lookup
                  (reg_fallback
                    (st.1, st.2 ++ [(.warning,
                      "a calmjs runtime command named '" ++ e.name
                        ++ "' already registered; keeping '" ++ prior.source
                        ++ "', ignoring '" ++ e.source ++ "'")])
                    prior.source prior.impl)
                  e.source impl k with houter | ⟨hk2, hv2⟩
              · rw [houter] at h
                rcases reg_fallback_lookup
                    (st.1, st.2 ++ [(.warning,
                      "a calmjs runtime command named '" ++ e.name
                        ++ "' already registered; keeping '" ++ prior.source
                        ++ "', ignoring '" ++ e.source ++ "'")])
                    prior.source prior.impl k with hinner | ⟨hk1, hv1⟩
                · rw [hinner] at h
                  exact hst k v h
                · rw [h] at hv1
                  cases hv1
                  exact hprior
              · rw [h] at hv2
                cases hv2
                exact hsrc

theorem build_source_pred (P : String → Prop) (l : List CmdEntry)
    (st : Dict RegEntry × List LogEntry)
    (hst : ∀ k v, dget st.1 k = some v → P v.source)
    (hl : ∀ e ∈ l, P e.source) :
    ∀ k v, dget ((l.foldl reg_step st).1) k = some v → P v.source := by
  induction l generalizing st with
  | nil => exact hst
  | cons e rest ih =>
      exact ih _
        (reg_step_source_pred P st e hst (hl e (List.mem_cons_self e rest)))
        (fun e' he' => hl e' (List.mem_cons_of_mem e he'))

theorem build_untouched (l : List CmdEntry)
    (st : Dict RegEntry × List LogEntry) (k : String)
    (hname : ∀ e ∈ l, e.name ≠ k)
    (hsrc : ∀ e ∈ l, e.source ≠ k)
    (hq : dget st.1 k = none)
    (hvals : ∀ e ∈ l, ∀ v, dget st.1 e.name = some v → v.source ≠ k) :
    dget ((l.foldl reg_step st).1) k = none := by
  induction l generalizing st with
  | nil => exact hq
  | cons e0 rest ih =>
      have he0 : e0 ∈ e0 :: rest := List.mem_cons_self e0 rest
      have hq' : dget (reg_step st e0).1 k = none := by
        simp only [reg_step]
        cases himpl : e0.impl with
        | none => exact hq
        | some impl =>
            dsimp only []
            cases hv : valid_cmd_name e0.name with
            | false =>
                rw [if_neg Bool.false_ne_true]
                exact hq
            | true =>
                rw [if_pos rfl]
                cases hn : dget st.1 e0.name with
                | none =>
                    dsimp only []
                    rw [dget_dset, if_neg (hname e0 he0)]
                    exact hq
                | some prior =>
                    dsimp only []
                    rw [reg_fallback_other _ _ _ _ (hsrc e0 he0),
                      reg_fallback_other _ _ _ _ (hvals e0 he0 prior hn)]
                    exact hq
      have hvals' : ∀ e ∈ rest, ∀ v,
          dget (reg_step st e0).1 e.name = some v → v.source ≠ k := by
        intro e he v hv
        have hem := List.mem_cons_of_mem e0 he
        simp only [reg_step] at hv
        cases himpl : e0.impl with
        | none =>
            rw [himpl] at hv
            exact hvals e hem v hv
        | some impl =>
            rw [himpl] at hv
            dsimp only [] at hv
            cases hvn : valid_cmd_name e0.name with
            | false =>
                rw [hvn, if_neg Bool.false_ne_true] at hv
                exact hvals e hem v hv
            | true =>
                rw [hvn, if_pos rfl] at hv
                cases hn : dget st.1 e0.name with
                | none =>
                    rw [hn] at hv
                    dsimp only [] at hv
                    rw [dget_dset] at hv
                    by_cases hk : e0.name = e.name
                    · rw [if_pos hk] at hv
                      cases hv
                      exact hsrc e0 he0
                    · rw [if_neg hk] at hv
                      exact hvals e hem v hv
                | some prior =>
                    rw [hn] at hv
                    dsimp only [] at hv
                    rw [reg_fallback2_dget] at hv
                    rcases reg_fallback_lookup
                        (reg_fallback (st.1, ([] : List LogEntry))
                          prior.source prior.impl)
                        e0.source impl e.name with houter | ⟨hk2, hv2⟩
                    · rw [houter] at hv
                      rcases reg_fallback_lookup (st.1, ([] : List LogEntry))
                          prior.source prior.impl e.name with hinner | ⟨hk1, hv1⟩
                      · rw [hinner] at hv
                        exact hvals e hem v hv
                      · rw [hv] at hv1
                        cases hv1
                        exact hvals e0 he0 prior hn
                    · rw [hv] at hv2
                      cases hv2
                      exact hsrc e0 he0
      exact ih _ (fun e he => hname e (List.mem_cons_of_mem e0 he))
        (fun e he => hsrc e (List.mem_cons_of_mem e0 he)) hq' hvals'

theorem reg_step_bare (st : Dict RegEntry × List LogEntry) (e : CmdEntry)
    (i : Nat) (himpl : e.impl = some i)
    (hvalid : valid_cmd_name e.name = true)
    (hfree : dget st.1 e.name = none) :
    reg_step st e = (dset st.1 e.name ⟨e.source, i⟩, st.2) := by
  simp only [reg_step, himpl]
  rw [if_pos hvalid, hfree]

theorem reg_step_collide (st : Dict RegEntry × List LogEntry) (e : CmdEntry)
    (i : Nat) (prior : RegEntry) (himpl : e.impl = some i)
    (hvalid : valid_cmd_name e.name = true)
    (hn : dget st.1 e.name = some prior)
    (hs1 : dget st.1 prior.source = none)
    (hs2 : dget st.1 e.source = none)
    (hne : prior.source ≠ e.source) :
    reg_step st e
      = (dset (dset st.1 prior.source ⟨prior.source, prior.impl⟩)
          e.source ⟨e.source, i⟩,
        st.2 ++ [(.warning,
          "a calmjs runtime command named '" ++ e.name
            ++ "' already registered; keeping '" ++ prior.source
            ++ "', ignoring '" ++ e.source ++ "'")]) := by
  simp only [reg_step, himpl]
  rw [if_pos hvalid, hn]
  dsimp only []
  rw [show reg_fallback
      (st.1, st.2 ++ [(.warning,
        "a calmjs runtime command named '" ++ e.name
          ++ "' already registered; keeping '" ++ prior.source
          ++ "', ignoring '" ++ e.source ++ "'")])
      prior.source prior.impl
    = (dset st.1 prior.source ⟨prior.source, prior.impl⟩,
      st.2 ++ [(.warning,
        "a calmjs runtime command named '" ++ e.name
          ++ "' already registered; keeping '" ++ prior.source
          ++ "', ignoring '" ++ e.source ++ "'")]) from by
    simp only [reg_fallback]
    rw [show dget (st.1, st.2 ++ [((LogLevel.warning : LogLevel),
      "a calmjs runtime command named '" ++ e.name
        ++ "' already registered; keeping '" ++ prior.source
        ++ "', ignoring '" ++ e.source ++ "'")]).1 prior.source
      = none from hs1]]
  simp only [reg_fallback]
  rw [show dget (dset st.1 prior.source ⟨prior.source, prior.impl⟩,
      st.2 ++ [((LogLevel.warning : LogLevel),
        "a calmjs runtime command named '" ++ e.name
          ++ "' already registered; keeping '" ++ prior.source
          ++ "', ignoring '" ++ e.source ++ "'")]).1 e.source
    = none from by
      show dget (dset st.1 prior.source ⟨prior.source, prior.impl⟩) e.source
        = none
      rw [dget_dset, if_neg hne]
      exact hs2]

/-- C4: for a manifest in which two loadable entries share a valid public
command name (the second otherwise untouched by its neighbours), the build
keeps the first registration under the bare public name, additionally
registers winner and loser under their qualified fallback names (the ones
carrying the reserved separator), and logs a warning naming both the kept
and the discarded source — so both implementations remain invocable. -/
theorem cmd_registry_collision_keeps_both :
    ∀ (pre mid post : List CmdEntry) (e1 e2 : CmdEntry) (i1 i2 : Nat),
      e1.impl = some i1 → e2.impl = some i2 →
      e2.name = e1.name →
      valid_cmd_name e1.name = true →
      valid_cmd_name e1.source = false →
      valid_cmd_name e2.source = false →
      e1.source ≠ e2.source →
      e1.name ≠ e1.source → e1.name ≠ e2.source →
      (∀ e ∈ pre ++ mid,
        e.name ≠ e1.name ∧ e.name ≠ e1.source ∧ e.name ≠ e2.source
        ∧ e.source ≠ e1.name ∧ e.source ≠ e1.source ∧ e.source ≠ e2.source) →
      dget (build_registry (pre ++ e1 :: (mid ++ e2 :: post))).1 e1.name
          = some ⟨e1.source, i1⟩
      ∧ dget (build_registry (pre ++ e1 :: (mid ++ e2 :: post))).1 e1.source
          = some ⟨e1.source, i1⟩
      ∧ dget (build_registry (pre ++ e1 :: (mid ++ e2 :: post))).1 e2.source
          = some ⟨e2.source, i2⟩
      ∧ (LogLevel.warning,
          "a calmjs runtime command named '" ++ e1.name
            ++ "' already registered; keeping '" ++ e1.source
            ++ "', ignoring '" ++ e2.source ++ "'")
          ∈ (build_registry (pre ++ e1 :: (mid ++ e2 :: post))).2 := by
  intro pre mid post e1 e2 i1 i2 himpl1 himpl2 hname2 hvalid hfb1 hfb2 hss
    hn1 hn2 hpm
  have hpm1 := fun e he => hpm e (List.mem_append_left mid he)
  have hpmid := fun e he => hpm e (List.mem_append_right pre he)
  rw [show build_registry (pre ++ e1 :: (mid ++ e2 :: post))
      = List.foldl reg_step
          (reg_step (List.foldl reg_step
            (reg_step (List.foldl reg_step ([], []) pre) e1) mid) e2) post from by
    simp only [build_registry, List.foldl_append, List.foldl_cons]]
  have hpre_n : dget (List.foldl reg_step ([], []) pre).1 e1.name = none :=
    build_untouched pre ([], []) e1.name
      (fun e he => (hpm1 e he).1)
      (fun e he => (hpm1 e he).2.2.2.1)
      rfl
      (fun e _ v hv => by simp [dget] at hv)
  have hpre_s1 : dget (List.foldl reg_step ([], []) pre).1 e1.source = none :=
    build_untouched pre ([], []) e1.source
      (fun e he => (hpm1 e he).2.1)
      (fun e he => (hpm1 e he).2.2.2.2.1)
      rfl
      (fun e _ v hv => by simp [dget] at hv)
  have hpre_s2 : dget (List.foldl reg_step ([], []) pre).1 e2.source = none :=
    build_untouched pre ([], []) e2.source
      (fun e he => (hpm1 e he).2.2.1)
      (fun e he => (hpm1 e he).2.2.2.2.2)
      rfl
      (fun e _ v hv => by simp [dget] at hv)
  have hsp1 : ∀ k v, dget (List.foldl reg_step ([], []) pre).1 k = some v →
      v.source ≠ e1.source :=
    build_source_pred (fun s => s ≠ e1.source) pre ([], [])
      (fun k v hv => by simp [dget] at hv)
      (fun e he => (hpm1 e he).2.2.2.2.1)
  have hsp2 : ∀ k v, dget (List.foldl reg_step ([], []) pre).1 k = some v →
      v.source ≠ e2.source :=
    build_source_pred (fun s => s ≠ e2.source) pre ([], [])
      (fun k v hv => by simp [dget] at hv)
      (fun e he => (hpm1 e he).2.2.2.2.2)
  rw [reg_step_bare _ e1 i1 himpl1 hvalid hpre_n]
  have hst1_n : dget (dset (List.foldl reg_step ([], []) pre).1 e1.name
      ⟨e1.source, i1⟩) e1.name = some ⟨e1.source, i1⟩ := by
    rw [dget_dset, if_pos rfl]
  have hst1_s1 : dget (dset (List.foldl reg_step ([], []) pre).1 e1.name
      ⟨e1.source, i1⟩) e1.source = none := by
    rw [dget_dset, if_neg hn1]
    exact hpre_s1
  have hst1_s2 : dget (dset (List.foldl reg_step ([], []) pre).1 e1.name
      ⟨e1.source, i1⟩) e2.source = none := by
    rw [dget_dset, if_neg hn2]
    exact hpre_s2
  have hmid_n : dget ((List.foldl reg_step
      (dset (List.foldl reg_step ([], []) pre).1 e1.name ⟨e1.source, i1⟩,
        (List.foldl reg_step ([], []) pre).2) mid).1) e1.name
      = some ⟨e1.source, i1⟩ :=
    build_persist mid _ e1.name ⟨e1.source, i1⟩ hst1_n
  have hmid_vals1 : ∀ e ∈ mid, ∀ v,
      dget (dset (List.foldl reg_step ([], []) pre).1 e1.name
        ⟨e1.source, i1⟩, (List.foldl reg_step ([], []) pre).2).1 e.name
        = some v → v.source ≠ e1.source := by
    intro e he v hv
    show v.source ≠ e1.source
    have : dget (dset (List.foldl reg_step ([], []) pre).1 e1.name
        ⟨e1.source, i1⟩) e.name = some v := hv
    rw [dget_dset] at this
    by_cases hk : e1.name = e.name
    · exact absurd hk.symm (hpmid e he).1
    · rw [if_neg hk] at this
      exact hsp1 e.name v this
  have hmid_vals2 : ∀ e ∈ mid, ∀ v,
      dget (dset (List.foldl reg_step ([], []) pre).1 e1.name
        ⟨e1.source, i1⟩, (List.foldl reg_step ([], []) pre).2).1 e.name
        = some v → v.source ≠ e2.source := by
    intro e he v hv
    have : dget (dset (List.foldl reg_step ([], []) pre).1 e1.name
        ⟨e1.source, i1⟩) e.name = some v := hv
    rw [dget_dset] at this
    by_cases hk : e1.name = e.name
    · exact absurd hk.symm (hpmid e he).1
    · rw [if_neg hk] at this
      exact hsp2 e.name v this
  have hmid_s1 : dget ((List.foldl reg_step
      (dset (List.foldl reg_step ([], []) pre).1 e1.name ⟨e1.source, i1⟩,
        (List.foldl reg_step ([], []) pre).2) mid).1) e1.source = none :=
    build_untouched mid _ e1.source
      (fun e he => (hpmid e he).2.1)
      (fun e he => (hpmid e he).2.2.2.2.1)
      hst1_s1 hmid_vals1
  have hmid_s2 : dget ((List.foldl reg_step
      (dset (List.foldl reg_step ([], []) pre).1 e1.name ⟨e1.source, i1⟩,
        (List.foldl reg_step ([], []) pre).2) mid).1) e2.source = none :=
    build_untouched mid _ e2.source
      (fun e he => (hpmid e he).2.2.1)
      (fun e he => (hpmid e he).2.2.2.2.2)
      hst1_s2 hmid_vals2
  have hmid_n' : dget ((List.foldl reg_step
      (dset (List.foldl reg_step ([], []) pre).1 e1.name ⟨e1.source, i1⟩,
        (List.foldl reg_step ([], []) pre).2) mid).1) e2.name
      = some ⟨e1.source, i1⟩ := by
    rw [hname2]
    exact hmid_n
  rw [reg_step_collide _ e2 i2 ⟨e1.source, i1⟩ himpl2
    (by rw [hname2]; exact hvalid) hmid_n' hmid_s1 hmid_s2 hss]
  refine ⟨?_, ?_, ?_, ?_⟩
  · refine build_persist post _ e1.name ⟨e1.source, i1⟩ ?_
    show dget (dset (dset _ e1.source (⟨e1.source, i1⟩ : RegEntry))
      e2.source (⟨e2.source, i2⟩ : RegEntry)) e1.name
      = some (⟨e1.source, i1⟩ : RegEntry)
    rw [dget_dset, if_neg (fun h => hn2 h.symm), dget_dset,
      if_neg (fun h => hn1 h.symm)]
    exact hmid_n
  · refine build_persist post _ e1.source ⟨e1.source, i1⟩ ?_
    show dget (dset (dset _ e1.source (⟨e1.source, i1⟩ : RegEntry))
      e2.source (⟨e2.source, i2⟩ : RegEntry)) e1.source
      = some (⟨e1.source, i1⟩ : RegEntry)
    rw [dget_dset, if_neg (fun h => hss h.symm), dget_dset, if_pos rfl]
  · refine build_persist post _ e2.source ⟨e2.source, i2⟩ ?_
    show dget (dset (dset _ e1.source (⟨e1.source, i1⟩ : RegEntry))
      e2.source (⟨e2.source, i2⟩ : RegEntry)) e2.source
      = some (⟨e2.source, i2⟩ : RegEntry)
    rw [dget_dset, if_pos rfl]
  · refine build_logs_mono post _ _ ?_
    show _ ∈ _ ++ [((LogLevel.warning : LogLevel),
      "a calmjs runtime command named '" ++ e2.name
        ++ "' already registered; keeping '" ++ e1.source
        ++ "', ignoring '" ++ e2.source ++ "'")]
    rw [hname2]
    exact List.mem_append_right _ (List.mem_singleton.mpr rfl)

/-- Witness for C4: two loadable entries both named `bar`, with qualified
sources, collide; the first keeps the bare slot, both stay reachable under
their sources, and the collision warning is logged. -/
theorem cmd_registry_collision_keeps_both_witness :
    dget (build_registry ([] ++ (⟨"bar", "example1:foo_runtime", some 1⟩ : CmdEntry)
        :: ([] ++ (⟨"bar", "example2:runtime_foo", some 2⟩ : CmdEntry) :: []))).1
        "bar" = some ⟨"example1:foo_runtime", 1⟩
    ∧ dget (build_registry ([] ++ (⟨"bar", "example1:foo_runtime", some 1⟩ : CmdEntry)
        :: ([] ++ (⟨"bar", "example2:runtime_foo", some 2⟩ : CmdEntry) :: []))).1
        "example1:foo_runtime" = some ⟨"example1:foo_runtime", 1⟩
    ∧ dget (build_registry ([] ++ (⟨"bar", "example1:foo_runtime", some 1⟩ : CmdEntry)
        :: ([] ++ (⟨"bar", "example2:runtime_foo", some 2⟩ : CmdEntry) :: []))).1
        "example2:runtime_foo" = some ⟨"example2:runtime_foo", 2⟩
    ∧ (LogLevel.warning,
        "a calmjs runtime command named '" ++ "bar"
          ++ "' already registered; keeping '" ++ "example1:foo_runtime"
          ++ "', ignoring '" ++ "example2:runtime_foo" ++ "'")
        ∈ (build_registry ([] ++ (⟨"bar", "example1:foo_runtime", some 1⟩ : CmdEntry)
          :: ([] ++ (⟨"bar", "example2:runtime_foo", some 2⟩ : CmdEntry) :: []))).2 :=
  cmd_registry_collision_keeps_both [] [] []
    ⟨"bar", "example1:foo_runtime", some 1⟩
    ⟨"bar", "example2:runtime_foo", some 2⟩ 1 2
    rfl rfl rfl (by decide) (by decide) (by decide) (by decide)
    (by decide) (by decide)
    (by intro e he; cases he)

end Calmjs
